/-
  Verification of the XymosTeX core typesetting pipeline:
  a shallow embedding of src/box_to_dvi.rs and src/parser/math_list.rs,
  with the external collaborator types (crate::dvi, crate::boxes,
  crate::dimension, crate::math_list, parser/state interfaces) modelled
  from the specification where they are not part of the sources.
  Rust panics are modelled as Except.error; machine integers as Int/Nat
  with explicit reductions where the source casts.
-/
import Mathlib

namespace Xy

/-- Modelled from the spec: crate::dvi's DVICommand enum is not in src;
the constructors and operand shapes follow spec section 6.2.  The `chr`
operands are bytes (Nat, kept < 256 by the emitters), `cs` is the list of
ten count registers of a Bop. -/
inductive DVICommand where
  | setCharN (c : Nat)
  | set1 (c : Nat)
  | right4 (n : Int)
  | down4 (n : Int)
  | fnt4 (k : Int)
  | fntDef4 (font_num : Int) (checksum : Nat) (scale : Int) (design_size : Int)
      (area : Nat) (length : Nat) (font_name : String)
  | push
  | pop
  | bop (cs : List Int) (pointer : Int)
  | eop
  deriving DecidableEq, Repr

/-- Modelled from the spec: DVICommand::byte_size (crate::dvi, not in src),
per the fixed byte sizes of spec section 6.2. -/
def byteSize : DVICommand → Nat
  | .setCharN _ => 1
  | .set1 _ => 2
  | .right4 _ => 5
  | .down4 _ => 5
  | .fnt4 _ => 5
  | .fntDef4 _ _ _ _ _ len _ => 18 + len
  | .push => 1
  | .pop => 1
  | .bop _ _ => 45
  | .eop => 1

/-- Modelled from the spec: FilKind (crate::dimension, not in src):
the three infinite orders fil, fill, filll. -/
inductive FilKind where
  | fil
  | fill
  | filll
  deriving DecidableEq, Repr

/-- Modelled from the spec: SpringDimen (crate::dimension, not in src):
a finite dimension in scaled points, or an infinitely stretchable or
shrinkable one of a given order.  Dimensions are Int scaled points. -/
inductive SpringDimen where
  | dimen (d : Int)
  | filDimen (k : FilKind) (v : Int)
  deriving DecidableEq, Repr

/-- Modelled from the spec: Glue (crate::glue, not in src): a natural
space plus stretch and shrink spring dimensions (spec section 3.3). -/
structure Glue where
  space : Int
  stretch : SpringDimen
  shrink : SpringDimen
  deriving DecidableEq, Repr

/-- Modelled from the spec: GlueSetRatioKind (crate::boxes, not in src):
the order tag of a glue-set ratio (spec section 3.4). -/
inductive GlueSetRatioKind where
  | finite
  | fil
  | fill
  | filll
  deriving DecidableEq, Repr

/-- Modelled from the spec: GlueSetRatio (crate::boxes, not in src): an
order tag plus a real scalar; the scalar is modelled as a rational. -/
structure GlueSetRatioData where
  kind : GlueSetRatioKind
  value : Rat
  deriving DecidableEq, Repr

/-- The component of a spring dimension whose order matches the given
ratio kind; components of any other order contribute nothing
(spec section 3.4). -/
def springComponent (k : GlueSetRatioKind) : SpringDimen → Int
  | .dimen d => match k with
      | .finite => d
      | _ => 0
  | .filDimen fk v => match k, fk with
      | .fil, .fil => v
      | .fill, .fill => v
      | .filll, .filll => v
      | _, _ => 0

/-- Truncation of a rational toward zero, as the spec's fixed-point rules
require (spec section 4.5). -/
def ratTrunc (q : Rat) : Int :=
  if 0 ≤ q then Int.floor q else Int.ceil q

/-- Modelled from the spec: GlueSetRatio::apply_to_glue (crate::boxes, not
in src).  If the scalar is nonnegative the matching-order stretch component
is scaled and added to the space; if negative, the shrink component
(spec section 3.4). -/
def GlueSetRatioData.apply_to_glue (r : GlueSetRatioData) (g : Glue) : Int :=
  if 0 ≤ r.value then
    g.space + ratTrunc (r.value * (springComponent r.kind g.stretch : Int))
  else
    g.space + ratTrunc (r.value * (springComponent r.kind g.shrink : Int))

mutual
/-- Modelled from the spec: TeXBox (crate::boxes, not in src): a
horizontal or vertical box with chosen height, depth and width (scaled
points), an element list and an optional glue-set ratio. -/
inductive TeXBox where
  | horizontalBox (height depth width : Int) (list : List HorizontalListElem)
      (glue_set : Option GlueSetRatioData)
  | verticalBox (height depth width : Int) (list : List VerticalListElem)
      (glue_set : Option GlueSetRatioData)

/-- Modelled from the spec: HorizontalListElem (crate::list, not in src):
a character in a font, a horizontal skip, or a sub-box. -/
inductive HorizontalListElem where
  | char (chr : Nat) (font : String)
  | hskip (g : Glue)
  | box (b : TeXBox)

/-- Modelled from the spec: VerticalListElem (crate::list, not in src):
a vertical skip or a sub-box. -/
inductive VerticalListElem where
  | vskip (g : Glue)
  | box (b : TeXBox)
end

/-- Height accessor of a box (crate::boxes, modelled from the spec). -/
def TeXBox.height : TeXBox → Int
  | .horizontalBox h _ _ _ _ => h
  | .verticalBox h _ _ _ _ => h

/-- Depth accessor of a box (crate::boxes, modelled from the spec). -/
def TeXBox.depth : TeXBox → Int
  | .horizontalBox _ d _ _ _ => d
  | .verticalBox _ d _ _ _ => d

/-- Width accessor of a box (crate::boxes, modelled from the spec). -/
def TeXBox.width : TeXBox → Int
  | .horizontalBox _ _ w _ _ => w
  | .verticalBox _ _ w _ _ => w

/-- The DVIFileWriter state of src/box_to_dvi.rs.  The HashMap of font
numbers is modelled as an association list with prepend-insert (insert is
only ever called for absent keys, so lookup agrees with the map). -/
structure DVIFileWriter where
  commands : List DVICommand
  stack_depth : Nat
  last_page_start : Int
  curr_font_num : Int
  font_nums : List (String × Int)
  next_font_num : Int
  deriving Repr

/-- DVIFileWriter::new of src/box_to_dvi.rs. -/
def DVIFileWriter.new : DVIFileWriter :=
  { commands := []
    stack_depth := 0
    last_page_start := -1
    curr_font_num := -1
    font_nums := []
    next_font_num := 0 }

/-- Association-list lookup mirroring HashMap::get on font_nums. -/
def lookupFont : List (String × Int) → String → Option Int
  | [], _ => none
  | (f, n) :: rest, g => if f = g then some n else lookupFont rest g

/-- DVIFileWriter::add_font_def of src/box_to_dvi.rs.  The metrics oracle
is the parameter `cks` (get_metrics_for_font + get_checksum are external
file IO; spec section 4.1 specifies them as a per-name checksum oracle).
The `length: font.len() as u8` cast is modelled as a reduction mod 256. -/
def add_font_def (cks : String → Nat) (w : DVIFileWriter) (font : String) :
    DVIFileWriter × Int :=
  let font_num := w.next_font_num
  ({ w with
      next_font_num := w.next_font_num + 1
      commands := w.commands ++
        [DVICommand.fntDef4 font_num (cks font) 655360 655360 0
          (font.length % 256) font]
      font_nums := (font, font_num) :: w.font_nums }, font_num)

/-- DVIFileWriter::switch_to_font of src/box_to_dvi.rs. -/
def switch_to_font (cks : String → Nat) (w : DVIFileWriter) (font : String) :
    DVIFileWriter :=
  let res := match lookupFont w.font_nums font with
    | some font_num => (w, font_num)
    | none => add_font_def cks w font
  let w1 := res.1
  let font_num := res.2
  if font_num ≠ w1.curr_font_num then
    { w1 with
        commands := w1.commands ++ [DVICommand.fnt4 font_num]
        curr_font_num := font_num }
  else w1

mutual
/-- DVIFileWriter::add_box of src/box_to_dvi.rs: emits Push, serializes
each element with the box's own glue-set ratio, then emits Pop. -/
def add_box (cks : String → Nat) (w : DVIFileWriter) : TeXBox → DVIFileWriter
  | .horizontalBox _ _ _ list glue_set =>
      let w1 := { w with commands := w.commands ++ [DVICommand.push] }
      let w2 := add_hlist cks w1 list glue_set
      { w2 with commands := w2.commands ++ [DVICommand.pop] }
  | .verticalBox _ _ _ list glue_set =>
      let w1 := { w with commands := w.commands ++ [DVICommand.push] }
      let w2 := add_vlist cks w1 list glue_set
      { w2 with commands := w2.commands ++ [DVICommand.pop] }

/-- The element loop of add_box over a horizontal list (the for-loop of
src/box_to_dvi.rs lines 82-86). -/
def add_hlist (cks : String → Nat) (w : DVIFileWriter) :
    List HorizontalListElem → Option GlueSetRatioData → DVIFileWriter
  | [], _ => w
  | e :: rest, gsr => add_hlist cks (add_horizontal_list_elem cks w e gsr) rest gsr

/-- The element loop of add_box over a vertical list (the for-loop of
src/box_to_dvi.rs lines 87-91). -/
def add_vlist (cks : String → Nat) (w : DVIFileWriter) :
    List VerticalListElem → Option GlueSetRatioData → DVIFileWriter
  | [], _ => w
  | e :: rest, gsr => add_vlist cks (add_vertical_list_elem cks w e gsr) rest gsr

/-- DVIFileWriter::add_horizontal_list_elem of src/box_to_dvi.rs.  The
Rust `*chr as u8` cast reduces the character code mod 256 before the
comparison with 128. -/
def add_horizontal_list_elem (cks : String → Nat) (w : DVIFileWriter) :
    HorizontalListElem → Option GlueSetRatioData → DVIFileWriter
  | .char chr font, _ =>
      let command := if chr % 256 < 128 then DVICommand.setCharN (chr % 256)
        else DVICommand.set1 (chr % 256)
      let w1 := switch_to_font cks w font
      { w1 with commands := w1.commands ++ [command] }
  | .hskip g, gsr =>
      let move_amount := match gsr with
        | some set_ratio => set_ratio.apply_to_glue g
        | none => g.space
      { w with commands := w.commands ++ [DVICommand.right4 move_amount] }
  | .box b, _ =>
      let w1 := add_box cks w b
      { w1 with commands := w1.commands ++ [DVICommand.right4 b.width] }

/-- DVIFileWriter::add_vertical_list_elem of src/box_to_dvi.rs. -/
def add_vertical_list_elem (cks : String → Nat) (w : DVIFileWriter) :
    VerticalListElem → Option GlueSetRatioData → DVIFileWriter
  | .vskip g, gsr =>
      let move_amount := match gsr with
        | some set_ratio => set_ratio.apply_to_glue g
        | none => g.space
      { w with commands := w.commands ++ [DVICommand.down4 move_amount] }
  | .box b, _ =>
      let w1 := add_box cks w b
      { w1 with commands := w1.commands ++ [DVICommand.down4 (b.height + b.depth)] }
end

/-- The total byte length of a command list (the sum the source computes
with map byte_size and sum in add_page). -/
def byteSum : List DVICommand → Nat
  | [] => 0
  | c :: rest => byteSize c + byteSum rest

/-- DVIFileWriter::add_page of src/box_to_dvi.rs: records the old
last_page_start, sets last_page_start to the byte offset of the new Bop,
emits the Bop carrying the old value, resets curr_font_num to -1,
serializes the page box, and emits Eop. -/
def add_page (cks : String → Nat) (w : DVIFileWriter) (page : TeXBox)
    (cs : List Int) : DVIFileWriter :=
  let old_last_page_start := w.last_page_start
  let w1 := { w with
    last_page_start := (byteSum w.commands : Int)
    commands := w.commands ++ [DVICommand.bop cs old_last_page_start] }
  let w2 := { w1 with curr_font_num := -1 }
  let w3 := add_box cks w2 page
  { w3 with commands := w3.commands ++ [DVICommand.eop] }

/-- A writer-session operation: one public call on the DVIFileWriter. -/
inductive WriterOp where
  | switchFont (font : String)
  | addBox (b : TeXBox)
  | addHElem (e : HorizontalListElem) (gsr : Option GlueSetRatioData)
  | addVElem (e : VerticalListElem) (gsr : Option GlueSetRatioData)
  | addPage (page : TeXBox) (cs : List Int)

/-- Apply one writer operation. -/
def applyOp (cks : String → Nat) (w : DVIFileWriter) : WriterOp → DVIFileWriter
  | .switchFont font => switch_to_font cks w font
  | .addBox b => add_box cks w b
  | .addHElem e gsr => add_horizontal_list_elem cks w e gsr
  | .addVElem e gsr => add_vertical_list_elem cks w e gsr
  | .addPage page cs => add_page cks w page cs

/-- A writer session: a sequence of operations run from DVIFileWriter::new. -/
def runOps (cks : String → Nat) (ops : List WriterOp) : DVIFileWriter :=
  ops.foldl (applyOp cks) DVIFileWriter.new

/-- A sequence of add_page calls starting from a given writer. -/
def add_pages (cks : String → Nat) (w : DVIFileWriter) :
    List (TeXBox × List Int) → DVIFileWriter
  | [] => w
  | (page, cs) :: rest => add_pages cks (add_page cks w page cs) rest

/-- Modelled from the spec: AtomKind (crate::math_list, not in src): the
eight spacing classes of spec section 3.7 used by the 8x8 table. -/
inductive AtomKind where
  | ord
  | op
  | bin
  | rel
  | open_
  | close
  | punct
  | inner
  deriving DecidableEq, Repr

/-- Modelled from the spec: MathStyle (crate::math_list, not in src). -/
inductive MathStyle where
  | displayStyle
  | textStyle
  | scriptStyle
  | scriptScriptStyle
  deriving DecidableEq, Repr

/-- Modelled from the spec: MathStyle::is_script holds exactly for
ScriptStyle and ScriptScriptStyle (spec section 3.7). -/
def MathStyle.is_script : MathStyle → Bool
  | .scriptStyle => true
  | .scriptScriptStyle => true
  | _ => false

/-- Modelled from the spec: MathSymbol (crate::math_list, not in src):
the family index and position-in-font number of a math symbol. -/
structure MathSymbol where
  family : Nat
  position_number : Nat
  deriving DecidableEq, Repr

mutual
/-- Modelled from the spec: MathField (crate::math_list, not in src): a
symbol, a nested math list, or a box (spec section 3.7). -/
inductive MathField where
  | symbol (s : MathSymbol)
  | mathList (l : List MathListElem)
  | teXBox (b : TeXBox)

/-- Modelled from the spec: MathListElem (crate::math_list, not in src):
an atom (kind, optional nucleus, optional subscript and superscript
fields) or a style change.  The atom structure is inlined. -/
inductive MathListElem where
  | atom (kind : AtomKind) (nucleus : Option MathField)
      (sub : Option MathField) (sup : Option MathField)
  | styleChange (s : MathStyle)
end

/-- The InterAtomSpacing tags of src/parser/math_list.rs lines 16-23. -/
inductive InterAtomSpacing where
  | none
  | thinSkip
  | thinSkipNonScript
  | mediumSkipNonScript
  | thickSkipNonScript
  deriving DecidableEq, Repr

/-- The INTER_ATOM_SPACING table of src/parser/math_list.rs lines 25-107.
Pairs commented out in the source (the forbidden pairs) have no entry and
yield none here, exactly as a failed HashMap lookup does there. -/
def INTER_ATOM_SPACING : AtomKind → AtomKind → Option InterAtomSpacing
  | .ord, .ord => some .none
  | .ord, .op => some .thinSkip
  | .ord, .bin => some .mediumSkipNonScript
  | .ord, .rel => some .thickSkipNonScript
  | .ord, .open_ => some .none
  | .ord, .close => some .none
  | .ord, .punct => some .none
  | .ord, .inner => some .thinSkipNonScript
  | .op, .ord => some .thinSkip
  | .op, .op => some .thinSkip
  | .op, .bin => none
  | .op, .rel => some .thickSkipNonScript
  | .op, .open_ => some .none
  | .op, .close => some .none
  | .op, .punct => some .none
  | .op, .inner => some .thinSkipNonScript
  | .bin, .ord => some .mediumSkipNonScript
  | .bin, .op => some .mediumSkipNonScript
  | .bin, .bin => none
  | .bin, .rel => none
  | .bin, .open_ => some .mediumSkipNonScript
  | .bin, .close => none
  | .bin, .punct => none
  | .bin, .inner => some .mediumSkipNonScript
  | .rel, .ord => some .thickSkipNonScript
  | .rel, .op => some .thickSkipNonScript
  | .rel, .bin => none
  | .rel, .rel => some .none
  | .rel, .open_ => some .thickSkipNonScript
  | .rel, .close => some .none
  | .rel, .punct => some .none
  | .rel, .inner => some .thickSkipNonScript
  | .open_, .ord => some .none
  | .open_, .op => some .none
  | .open_, .bin => none
  | .open_, .rel => some .none
  | .open_, .open_ => some .none
  | .open_, .close => some .none
  | .open_, .punct => some .none
  | .open_, .inner => some .none
  | .close, .ord => some .none
  | .close, .op => some .thinSkip
  | .close, .bin => some .mediumSkipNonScript
  | .close, .rel => some .thickSkipNonScript
  | .close, .open_ => some .none
  | .close, .close => some .none
  | .close, .punct => some .none
  | .close, .inner => some .thinSkipNonScript
  | .punct, .ord => some .thinSkipNonScript
  | .punct, .op => some .thinSkipNonScript
  | .punct, .bin => none
  | .punct, .rel => some .thinSkipNonScript
  | .punct, .open_ => some .thinSkipNonScript
  | .punct, .close => some .thinSkipNonScript
  | .punct, .punct => some .thinSkipNonScript
  | .punct, .inner => some .thinSkipNonScript
  | .inner, .ord => some .thinSkipNonScript
  | .inner, .op => some .thinSkip
  | .inner, .bin => some .mediumSkipNonScript
  | .inner, .rel => some .thickSkipNonScript
  | .inner, .open_ => some .thinSkipNonScript
  | .inner, .close => some .none
  | .inner, .punct => some .thinSkipNonScript
  | .inner, .inner => some .thinSkipNonScript

/-- The fixed thin skip glue of get_skip_for_atom_pair: 3pt, no stretch,
no shrink (src/parser/math_list.rs lines 325-329; 1pt = 65536sp). -/
def thinskip : Glue := ⟨196608, .dimen 0, .dimen 0⟩

/-- The fixed medium skip glue: 4pt plus 2pt minus 4pt
(src/parser/math_list.rs lines 330-334). -/
def mediumskip : Glue := ⟨262144, .dimen 131072, .dimen 262144⟩

/-- The fixed thick skip glue: 5pt plus 5pt
(src/parser/math_list.rs lines 335-339). -/
def thickskip : Glue := ⟨327680, .dimen 327680, .dimen 0⟩

/-- get_skip_for_atom_pair of src/parser/math_list.rs lines 316-360.  A
missing table entry makes the source panic; the panic is modelled as
Except.error with the panic message. -/
def get_skip_for_atom_pair (left_type right_type : AtomKind)
    (style : MathStyle) : Except String (Option Glue) :=
  match INTER_ATOM_SPACING left_type right_type with
  | some space =>
      .ok (match space, style.is_script with
        | .none, _ => none
        | .thinSkip, _ => some thinskip
        | .thinSkipNonScript, false => some thinskip
        | .thinSkipNonScript, true => none
        | .mediumSkipNonScript, false => some mediumskip
        | .mediumSkipNonScript, true => none
        | .thickSkipNonScript, false => some thickskip
        | .thickSkipNonScript, true => none)
  | none => .error "Invalid atom type pair"

/-- Modelled from the spec: the parser/state collaborators used by pass 1
of convert_math_list_to_horizontal_list are not in src
(state.get_current_font, add_to_natural_layout_horizontal_box,
combine_horizontal_list_into_horizontal_box_with_layout; spec sections
4.3 and 6.1).  They are modelled as an environment supplying the current
font and the natural height, depth and width the layout computes for a
one-character box and for a combined horizontal list. -/
structure MathEnv where
  currentFont : String
  charBoxDims : Nat → String → Int × Int × Int
  combineDims : List HorizontalListElem → Int × Int × Int

/-- Pass 2 of convert_math_list_to_horizontal_list
(src/parser/math_list.rs lines 426-468): thread the previous atom kind and
the current style; before each atom, look up the pair in the spacing table
and append the resulting skip if any; append the nucleus box; a style
change updates the style and emits nothing. -/
def pass2 (prev : Option AtomKind) (style : MathStyle) :
    List MathListElem → Except String (List HorizontalListElem)
  | [] => .ok []
  | .styleChange s :: rest => pass2 prev s rest
  | .atom kind nucleus sub sup :: rest =>
      match (match prev with
        | some last_kind =>
            match get_skip_for_atom_pair last_kind kind style with
            | .ok (some skip) => Except.ok [HorizontalListElem.hskip skip]
            | .ok none => .ok []
            | .error e => .error e
        | none => .ok []) with
      | .error e => .error e
      | .ok skipPart =>
          if sub.isSome || sup.isSome then
            .error "Atoms should be sub/superscript free in second pass!"
          else
            match (match nucleus with
              | some (.teXBox b) => Except.ok [HorizontalListElem.box b]
              | none => .ok []
              | some _ =>
                  .error "Atom nucleuses should only be boxes in second pass!") with
            | .error e => .error e
            | .ok nucleusPart =>
                match pass2 (some kind) style rest with
                | .ok r => .ok (skipPart ++ nucleusPart ++ r)
                | .error e => .error e

mutual
/-- The nucleus rewriting of pass 1 of convert_math_list_to_horizontal_list
(src/parser/math_list.rs lines 373-407): a Symbol becomes a one-character
horizontal box in the current font, a MathList is recursively translated
at the current style and packaged as a natural horizontal box, a box is
unchanged. -/
def normField (env : MathEnv) (style : MathStyle) :
    MathField → Except String MathField
  | .symbol s =>
      let dims := env.charBoxDims s.position_number env.currentFont
      .ok (.teXBox (.horizontalBox dims.1 dims.2.1 dims.2.2
        [.char s.position_number env.currentFont] none))
  | .teXBox b => .ok (.teXBox b)
  | .mathList l =>
      match convertMathList env style l with
      | .ok hlist =>
          let dims := env.combineDims hlist
          .ok (.teXBox (.horizontalBox dims.1 dims.2.1 dims.2.2 hlist none))
      | .error e => .error e

/-- The nucleus dispatch of pass 1: an absent nucleus stays absent, a
present one is rewritten by normField (src/parser/math_list.rs
lines 373-407). -/
def normNucleus (env : MathEnv) (style : MathStyle) :
    Option MathField → Except String (Option MathField)
  | none => .ok none
  | some f =>
      match normField env style f with
      | .ok f2 => .ok (some f2)
      | .error e => .error e

/-- Pass 1 of convert_math_list_to_horizontal_list
(src/parser/math_list.rs lines 367-424): normalise each atom's nucleus,
fail on any remaining subscript or superscript, track style changes. -/
def pass1 (env : MathEnv) (style : MathStyle) :
    List MathListElem → Except String (List MathListElem)
  | [] => .ok []
  | .styleChange s :: rest =>
      match pass1 env s rest with
      | .ok r => .ok (.styleChange s :: r)
      | .error e => .error e
  | .atom kind nucleus sub sup :: rest =>
      match normNucleus env style nucleus with
      | .error e => .error e
      | .ok nucleus2 =>
          if sub.isSome || sup.isSome then
            .error "Unimplemented superscript/subscript"
          else
            match pass1 env style rest with
            | .ok r => .ok (.atom kind nucleus2 sub sup :: r)
            | .error e => .error e

/-- convert_math_list_to_horizontal_list of src/parser/math_list.rs
lines 362-471: pass 1 then pass 2, both starting at the given style. -/
def convertMathList (env : MathEnv) (start_style : MathStyle)
    (list : List MathListElem) : Except String (List HorizontalListElem) :=
  match pass1 env start_style list with
  | .ok l2 => pass2 none start_style l2
  | .error e => .error e
end

/-- Modelled from the spec: Category (crate::category, not in src): the
token categories the math-list parser inspects. -/
inductive Category where
  | letter
  | other
  | beginGroup
  | endGroup
  | mathShift
  | superscript
  | subscript
  | space
  deriving DecidableEq, Repr

/-- Modelled from the spec: Token (crate::token, not in src).  The
tokenizer and macro expander are external collaborators (spec section 6.1),
so the expanded token stream is modelled as a list of character tokens and
lex_expanded_token / peek_expanded_token as popping / peeking it;
replace_renamed_token acts as the identity on character tokens. -/
inductive Token where
  | char (c : Char) (cat : Category)
  deriving DecidableEq, Repr

/-- Modelled from the spec: a math code, a 15-bit number whose class,
family and position fields drive atom construction (spec section 3.7). -/
abbrev MathCode := Nat

/-- The class field of a math code (its high hex digit). -/
def mathCodeClass (mc : MathCode) : Nat := mc / 4096 % 8

/-- The family field of a math code. -/
def mathCodeFamily (mc : MathCode) : Nat := mc / 256 % 16

/-- The position field of a math code (its low byte). -/
def mathCodePosition (mc : MathCode) : Nat := mc % 256

/-- Modelled from the spec: the atom kind determined by a math code class
(classes 0-6 map to Ord..Punct; class 7, VarFam, behaves as Ord). -/
def kindOfClass : Nat → AtomKind
  | 0 => .ord
  | 1 => .op
  | 2 => .bin
  | 3 => .rel
  | 4 => .open_
  | 5 => .close
  | 6 => .punct
  | _ => .ord

/-- Modelled from the spec: MathSymbol::from_math_code (crate::math_list,
not in src): the symbol with the code's family and position fields. -/
def symbolFromMathCode (mc : MathCode) : MathSymbol :=
  ⟨mathCodeFamily mc, mathCodePosition mc⟩

/-- Modelled from the spec: MathAtom::from_math_code (crate::math_list,
not in src): an atom of the class's kind whose nucleus is the symbol of
the code, with no scripts. -/
def atomFromMathCode (mc : MathCode) : MathListElem :=
  .atom (kindOfClass (mathCodeClass mc))
    (some (.symbol (symbolFromMathCode mc))) none none

/-- Modelled from the spec: MathAtom::empty_ord (crate::math_list, not in
src): an Ord atom with no nucleus and no scripts. -/
def emptyOrd : MathListElem := .atom .ord none none none

/-- Modelled from the spec: the mutable parser state (crate::state, not in
src) restricted to what the math-list parser consults: the math code
table, the math chardef table, and the scope depth moved by push_state /
pop_state.  Assignments, which would mutate the tables, enter through
control sequences outside the modelled token alphabet, so the tables are
constant within a parse and the scope stack is summarised by its depth. -/
structure ParserState where
  mathCodes : Char → MathCode
  chardefs : Token → Option MathCode
  depth : Nat

/-- The parser: the expanded token stream plus the state. -/
structure TexParser where
  tokens : List Token
  state : ParserState

/-- peek_expanded_token, modelled on the expanded stream. -/
def peekTok (p : TexParser) : Option Token := p.tokens.head?

/-- lex_expanded_token, modelled on the expanded stream. -/
def lexTok (p : TexParser) : Option Token × TexParser :=
  (p.tokens.head?, { p with tokens := p.tokens.tail })

/-- state.push_state: enter a scope. -/
def pushState (p : TexParser) : TexParser :=
  { p with state := { p.state with depth := p.state.depth + 1 } }

/-- state.pop_state: leave a scope. -/
def popState (p : TexParser) : TexParser :=
  { p with state := { p.state with depth := p.state.depth - 1 } }

/-- is_character_head of src/parser/math_list.rs lines 110-117: the next
expanded token is a character of category Letter or Other. -/
def isCharacterHead (p : TexParser) : Bool :=
  match peekTok p with
  | some (.char _ .letter) => true
  | some (.char _ .other) => true
  | _ => false

/-- parse_character_to_math_code of src/parser/math_list.rs lines 119-129:
consume the token and look its character up in the math code table; the
catch-all panic is modelled as an error. -/
def parseCharacterToMathCode (p : TexParser) :
    Except String (MathCode × TexParser) :=
  match lexTok p with
  | (some (.char ch _), p1) => .ok (p.state.mathCodes ch, p1)
  | (none, _) => .error "panic"

/-- is_math_character_head of src/parser/math_list.rs lines 131-142: the
next expanded token has a math chardef. -/
def isMathCharacterHead (p : TexParser) : Bool :=
  match peekTok p with
  | some tok => (p.state.chardefs tok).isSome
  | none => false

/-- parse_math_character_to_math_code of src/parser/math_list.rs lines
144-156. -/
def parseMathCharacterToMathCode (p : TexParser) :
    Except String (MathCode × TexParser) :=
  match lexTok p with
  | (some tok, p1) =>
      match p.state.chardefs tok with
      | some mc => .ok (mc, p1)
      | none => .error "Invalid math chardef token"
  | (none, _) => .error "Invalid math chardef token"

/-- is_math_symbol_head of src/parser/math_list.rs lines 158-160. -/
def isMathSymbolHead (p : TexParser) : Bool :=
  isCharacterHead p || isMathCharacterHead p

/-- parse_math_symbol of src/parser/math_list.rs lines 162-170. -/
def parseMathSymbol (p : TexParser) : Except String (MathCode × TexParser) :=
  if isCharacterHead p then parseCharacterToMathCode p
  else if isMathCharacterHead p then parseMathCharacterToMathCode p
  else .error "Unimplemented"

/-- is_math_superscript_head of src/parser/math_list.rs lines 206-212. -/
def isSuperscriptHead (p : TexParser) : Bool :=
  match peekTok p with
  | some (.char _ .superscript) => true
  | _ => false

/-- is_math_subscript_head of src/parser/math_list.rs lines 225-231. -/
def isSubscriptHead (p : TexParser) : Bool :=
  match peekTok p with
  | some (.char _ .subscript) => true
  | _ => false

/-- Modelled from the spec: parse_filler_expanded (crate::parser, not in
src) skips the filler (space tokens) before a math field. -/
def skipFiller (p : TexParser) : TexParser :=
  { p with tokens := p.tokens.dropWhile (fun tok => match tok with
      | .char _ .space => true
      | _ => false) }

/-- Whether an element is an atom carrying a superscript. -/
def elemHasSup : MathListElem → Bool
  | .atom _ _ _ sup => sup.isSome
  | _ => false

/-- Whether an element is an atom carrying a subscript. -/
def elemHasSub : MathListElem → Bool
  | .atom _ _ sub _ => sub.isSome
  | _ => false

/-- The current_list.pop() step of the script branches of parse_math_list
(src/parser/math_list.rs lines 284-291), on the reversed accumulator: a
trailing atom is detached, anything else stays and an empty Ord atom is
produced. -/
def popLastAtom : List MathListElem → MathListElem × List MathListElem
  | .atom k n sb sp :: rest => (.atom k n sb sp, rest)
  | other :: rest => (emptyOrd, other :: rest)
  | [] => (emptyOrd, [])

mutual
/-- The parse_math_list loop of src/parser/math_list.rs lines 269-314,
with the accumulated list kept in reverse (the source pops its last
element for scripts; here that is the head of the accumulator).  The
assignment and style-change branches test for control-sequence primitives,
which lie outside the modelled character-token alphabet, so those
recognizers are constantly false here.  The recursion is bounded by fuel;
running out is an error, and every claim about successful parses is
conditioned on an .ok result. -/
def parseMathListAux : Nat → TexParser → List MathListElem →
    Except String (List MathListElem × TexParser)
  | 0, _, _ => .error "out of fuel"
  | fuel + 1, p, acc =>
      if isMathSymbolHead p then
        match parseMathSymbol p with
        | .ok (mc, p1) => parseMathListAux fuel p1 (atomFromMathCode mc :: acc)
        | .error e => .error e
      else if isSuperscriptHead p then
        match parseMathSuperscript fuel p (popLastAtom acc).1 with
        | .ok (a, p1) => parseMathListAux fuel p1 (a :: (popLastAtom acc).2)
        | .error e => .error e
      else if isSubscriptHead p then
        match parseMathSubscript fuel p (popLastAtom acc).1 with
        | .ok (a, p1) => parseMathListAux fuel p1 (a :: (popLastAtom acc).2)
        | .error e => .error e
      else
        match peekTok p with
        | some (.char _ .endGroup) => .ok (acc.reverse, p)
        | some (.char _ .mathShift) => .ok (acc.reverse, p)
        | none => .ok (acc.reverse, p)
        | _ => .error "unimplemented"

/-- parse_math_superscript of src/parser/math_list.rs lines 214-223:
consume the superscript token, fail on a double superscript, parse the
field and attach it. -/
def parseMathSuperscript (fuel : Nat) (p : TexParser) (a : MathListElem) :
    Except String (MathListElem × TexParser) :=
  let p1 := (lexTok p).2
  if elemHasSup a then .error "Double superscript"
  else
    match parseMathField fuel p1 with
    | .ok (f, p2) =>
        match a with
        | .atom k n sb _ => .ok (.atom k n sb (some f), p2)
        | other => .ok (other, p2)
    | .error e => .error e

/-- parse_math_subscript of src/parser/math_list.rs lines 233-242. -/
def parseMathSubscript (fuel : Nat) (p : TexParser) (a : MathListElem) :
    Except String (MathListElem × TexParser) :=
  let p1 := (lexTok p).2
  if elemHasSub a then .error "Double subscript"
  else
    match parseMathField fuel p1 with
    | .ok (f, p2) =>
        match a with
        | .atom k n _ sp => .ok (.atom k n (some f) sp, p2)
        | other => .ok (other, p2)
    | .error e => .error e

/-- parse_math_field of src/parser/math_list.rs lines 194-204: skip
filler, then a symbol or a math group. -/
def parseMathField (fuel : Nat) (p : TexParser) :
    Except String (MathField × TexParser) :=
  let p1 := skipFiller p
  if isMathSymbolHead p1 then
    match parseMathSymbol p1 with
    | .ok (mc, p2) => .ok (.symbol (symbolFromMathCode mc), p2)
    | .error e => .error e
  else
    match parseMathGroup fuel p1 with
    | .ok (l, p2) => .ok (.mathList l, p2)
    | .error e => .error e

/-- parse_math_group of src/parser/math_list.rs lines 172-192: demand a
BeginGroup token, push a scope, parse the inner list, pop the scope,
demand an EndGroup token, and return the inner list.  The two panics keep
their messages. -/
def parseMathGroup (fuel : Nat) (p : TexParser) :
    Except String (List MathListElem × TexParser) :=
  match lexTok p with
  | (some (.char _ .beginGroup), p1) =>
      let p2 := pushState p1
      match parseMathListAux fuel p2 [] with
      | .ok (math_list, p3) =>
          let p4 := popState p3
          match lexTok p4 with
          | (some (.char _ .endGroup), p5) => .ok (math_list, p5)
          | _ => .error "Math group didn\x27t end with an EndGroup"
      | .error e => .error e
  | _ => .error "Invalid start of math group"
end

/-- parse_math_list of src/parser/math_list.rs lines 269-314: run the
loop with an empty accumulator. -/
def parseMathList (fuel : Nat) (p : TexParser) :
    Except String (List MathListElem × TexParser) :=
  parseMathListAux fuel p []

/-! Measurement helpers for stating and proving the claims. -/

/-- Whether a command is a Push. -/
def isPushCmd : DVICommand → Bool
  | .push => true
  | _ => false

/-- Whether a command is a Pop. -/
def isPopCmd : DVICommand → Bool
  | .pop => true
  | _ => false

/-- Whether a command is a Bop. -/
def isBopCmd : DVICommand → Bool
  | .bop _ _ => true
  | _ => false

/-- The number of Push commands in a list. -/
def countPush : List DVICommand → Nat
  | [] => 0
  | c :: r => (if isPushCmd c then 1 else 0) + countPush r

/-- The number of Pop commands in a list. -/
def countPop : List DVICommand → Nat
  | [] => 0
  | c :: r => (if isPopCmd c then 1 else 0) + countPop r

/-- The font-definition commands of a stream: (font_num, font_name) pairs
in emission order. -/
def fntDefsOf (l : List DVICommand) : List (Int × String) :=
  l.filterMap (fun c => match c with
    | .fntDef4 n _ _ _ _ _ name => some (n, name)
    | _ => none)

/-- The Fnt4 operands of a stream, in emission order. -/
def fnt4sOf (l : List DVICommand) : List Int :=
  l.filterMap (fun c => match c with
    | .fnt4 n => some n
    | _ => none)

/-- The commands emitted since the most recent Bop (the whole stream when
no Bop was emitted). -/
def afterLastBop (l : List DVICommand) : List DVICommand :=
  l.foldl (fun acc c => if isBopCmd c then [] else acc ++ [c]) []

/-- No two adjacent entries of the list are equal. -/
def adjDistinct : List Int → Bool
  | [] => true
  | [_] => true
  | a :: b :: r => decide (a ≠ b) && adjDistinct (b :: r)

/-- The (byte offset, back-pointer) pairs of the Bop commands of a stream,
offsets accumulated from the given start. -/
def bopOffsets (off : Int) : List DVICommand → List (Int × Int)
  | [] => []
  | c :: rest =>
      (match c with
        | .bop _ ptr => [(off, ptr)]
        | _ => []) ++ bopOffsets (off + (byteSize c : Int)) rest

/-- Whether an element is an atom carrying a subscript or a superscript. -/
def elemHasScript (e : MathListElem) : Bool := elemHasSub e || elemHasSup e

/-- An element whose nucleus (if it is an atom) is absent or a box. -/
def nucleusBoxOrNone : MathListElem → Prop
  | .atom _ nucleus _ _ => nucleus = none ∨ ∃ b, nucleus = some (.teXBox b)
  | .styleChange _ => True

/-- A math field that is a box or a symbol. -/
def BoxOrSym (f : MathField) : Prop :=
  (∃ b, f = .teXBox b) ∨ (∃ s, f = .symbol s)

/-! Basic lemmas about the measurement helpers. -/

theorem countPush_append (l1 l2 : List DVICommand) :
    countPush (l1 ++ l2) = countPush l1 + countPush l2 := by
  induction l1 with
  | nil => simp [countPush]
  | cons c r ih => simp [countPush, ih]; omega

theorem countPop_append (l1 l2 : List DVICommand) :
    countPop (l1 ++ l2) = countPop l1 + countPop l2 := by
  induction l1 with
  | nil => simp [countPop]
  | cons c r ih => simp [countPop, ih]; omega

theorem fntDefsOf_append (l1 l2 : List DVICommand) :
    fntDefsOf (l1 ++ l2) = fntDefsOf l1 ++ fntDefsOf l2 :=
  List.filterMap_append _ _ _

theorem fnt4sOf_append (l1 l2 : List DVICommand) :
    fnt4sOf (l1 ++ l2) = fnt4sOf l1 ++ fnt4sOf l2 :=
  List.filterMap_append _ _ _

theorem byteSum_append (l1 l2 : List DVICommand) :
    byteSum (l1 ++ l2) = byteSum l1 + byteSum l2 := by
  induction l1 with
  | nil => simp [byteSum]
  | cons c rest ih => simp [byteSum, ih]; omega

theorem afterLastBop_append_one (l : List DVICommand) (c : DVICommand) :
    afterLastBop (l ++ [c]) =
      if isBopCmd c then [] else afterLastBop l ++ [c] := by
  unfold afterLastBop
  rw [List.foldl_append]
  rfl

theorem afterLastBop_no_bop (l : List DVICommand)
    (h : ∀ c ∈ l, isBopCmd c = false) : afterLastBop l = l := by
  have key : ∀ (l : List DVICommand) (acc : List DVICommand),
      (∀ c ∈ l, isBopCmd c = false) →
      l.foldl (fun acc c => if isBopCmd c then [] else acc ++ [c]) acc =
        acc ++ l := by
    intro l
    induction l with
    | nil => intro acc _; simp
    | cons c rest ih =>
        intro acc hc
        have hcne : isBopCmd c = false := hc c (by simp)
        have hrest : ∀ d ∈ rest, isBopCmd d = false := by
          intro d hd; exact hc d (by simp [hd])
        simp only [List.foldl_cons, hcne, Bool.false_eq_true, if_false]
        rw [ih _ hrest]
        simp
  exact key l [] h

theorem adjDistinct_concat (l : List Int) (n : Int) :
    adjDistinct (l ++ [n]) =
      (adjDistinct l &&
        match l.getLast? with
        | some m => decide (m ≠ n)
        | none => true) := by
  induction l with
  | nil => simp [adjDistinct]
  | cons a rest ih =>
      cases rest with
      | nil => simp [adjDistinct]
      | cons b r =>
          simp only [List.cons_append] at ih ⊢
          rw [adjDistinct, adjDistinct, ih]
          rw [List.getLast?_cons_cons]
          cases h : (b :: r).getLast? with
          | none => simp at h
          | some m => simp [Bool.and_assoc]

theorem bopOffsets_append (off : Int) (l1 l2 : List DVICommand) :
    bopOffsets off (l1 ++ l2) =
      bopOffsets off l1 ++ bopOffsets (off + (byteSum l1 : Int)) l2 := by
  induction l1 generalizing off with
  | nil => simp [bopOffsets, byteSum]
  | cons c rest ih =>
      cases c <;>
        simp [bopOffsets, ih, byteSum, byteSize, List.append_assoc,
          Nat.cast_add, add_assoc]

/-- A command that does not touch the font registry or the page structure:
not a FntDef4, not a Fnt4, not a Bop. -/
def fontNeutral : DVICommand → Bool
  | .fntDef4 _ _ _ _ _ _ _ => false
  | .fnt4 _ => false
  | .bop _ _ => false
  | _ => true

/-- The list of the first n integers 0, 1, ..., n-1, in order: the
expected font numbers of a session's FntDef4 commands. -/
def intRange : Nat → List Int
  | 0 => []
  | n + 1 => intRange n ++ [(n : Int)]

theorem mem_intRange (m : Int) (n : Nat) (h : m ∈ intRange n) :
    0 ≤ m ∧ m < (n : Int) := by
  induction n with
  | zero => simp [intRange] at h
  | succ k ih =>
      simp only [intRange, List.mem_append, List.mem_singleton] at h
      rcases h with h | h
      · have := ih h
        omega
      · omega

/-- The font-registry invariant of a writer: font numbers are allocated
consecutively from 0, each font name has exactly one FntDef4 exactly when
it is registered, the current font number is unset or an allocated one,
and the Fnt4 commands of the current page are adjacent-distinct with the
last one equal to the current font number. -/
structure FontInv (w : DVIFileWriter) : Prop where
  next_nonneg : 0 ≤ w.next_font_num
  defs_consecutive : (fntDefsOf w.commands).map Prod.fst =
    intRange w.next_font_num.toNat
  lookup_some : ∀ f n, lookupFont w.font_nums f = some n →
    (fntDefsOf w.commands).filter (fun pr => pr.2 == f) = [(n, f)]
  lookup_none : ∀ f, lookupFont w.font_nums f = none →
    (fntDefsOf w.commands).filter (fun pr => pr.2 == f) = []
  curr_ok : w.curr_font_num = -1 ∨
    w.curr_font_num ∈ (fntDefsOf w.commands).map Prod.fst
  fnt4_distinct : adjDistinct (fnt4sOf (afterLastBop w.commands)) = true
  curr_last_some : ∀ n, (fnt4sOf (afterLastBop w.commands)).getLast? = some n →
    w.curr_font_num = n
  curr_last_none : (fnt4sOf (afterLastBop w.commands)).getLast? = none →
    w.curr_font_num = -1

theorem fntDefsOf_single_neutral (c : DVICommand) (h : fontNeutral c = true) :
    fntDefsOf [c] = [] := by
  cases c <;> simp_all [fontNeutral, fntDefsOf]

theorem fnt4sOf_single_neutral (c : DVICommand) (h : fontNeutral c = true) :
    fnt4sOf [c] = [] := by
  cases c <;> simp_all [fontNeutral, fnt4sOf]

theorem isBopCmd_of_neutral (c : DVICommand) (h : fontNeutral c = true) :
    isBopCmd c = false := by
  cases c <;> simp_all [fontNeutral, isBopCmd]

theorem fontInv_new : FontInv DVIFileWriter.new := by
  constructor <;>
    simp [DVIFileWriter.new, fntDefsOf, fnt4sOf, afterLastBop, lookupFont,
      adjDistinct, intRange]

theorem fontInv_append_neutral (w : DVIFileWriter) (c : DVICommand)
    (hc : fontNeutral c = true) (h : FontInv w) :
    FontInv { w with commands := w.commands ++ [c] } := by
  have hdefs : fntDefsOf (w.commands ++ [c]) = fntDefsOf w.commands := by
    rw [fntDefsOf_append, fntDefsOf_single_neutral c hc, List.append_nil]
  have halb : afterLastBop (w.commands ++ [c]) = afterLastBop w.commands ++ [c] := by
    rw [afterLastBop_append_one, isBopCmd_of_neutral c hc]
    simp
  have hfnt4 : fnt4sOf (afterLastBop (w.commands ++ [c])) =
      fnt4sOf (afterLastBop w.commands) := by
    rw [halb, fnt4sOf_append, fnt4sOf_single_neutral c hc, List.append_nil]
  exact {
    next_nonneg := h.next_nonneg
    defs_consecutive := by simp only [hdefs]; exact h.defs_consecutive
    lookup_some := by
      intro f n hf
      simp only [hdefs]
      exact h.lookup_some f n hf
    lookup_none := by
      intro f hf
      simp only [hdefs]
      exact h.lookup_none f hf
    curr_ok := by simp only [hdefs]; exact h.curr_ok
    fnt4_distinct := by simp only [hfnt4]; exact h.fnt4_distinct
    curr_last_some := by
      intro n hn
      simp only [hfnt4] at hn
      exact h.curr_last_some n hn
    curr_last_none := by
      intro hn
      simp only [hfnt4] at hn
      exact h.curr_last_none hn }

/-! Unfolding equations for the mutually recursive serializer functions. -/

theorem add_box_hbox (cks : String → Nat) (w : DVIFileWriter)
    (h d wd : Int) (list : List HorizontalListElem)
    (gsr : Option GlueSetRatioData) :
    add_box cks w (.horizontalBox h d wd list gsr) =
      (let w2 := add_hlist cks
        { w with commands := w.commands ++ [DVICommand.push] } list gsr
       { w2 with commands := w2.commands ++ [DVICommand.pop] }) := by
  rw [add_box.eq_def]

theorem add_box_vbox (cks : String → Nat) (w : DVIFileWriter)
    (h d wd : Int) (list : List VerticalListElem)
    (gsr : Option GlueSetRatioData) :
    add_box cks w (.verticalBox h d wd list gsr) =
      (let w2 := add_vlist cks
        { w with commands := w.commands ++ [DVICommand.push] } list gsr
       { w2 with commands := w2.commands ++ [DVICommand.pop] }) := by
  rw [add_box.eq_def]

theorem add_hlist_nil (cks : String → Nat) (w : DVIFileWriter)
    (gsr : Option GlueSetRatioData) : add_hlist cks w [] gsr = w := by
  rw [add_hlist.eq_def]

theorem add_hlist_cons (cks : String → Nat) (w : DVIFileWriter)
    (e : HorizontalListElem) (rest : List HorizontalListElem)
    (gsr : Option GlueSetRatioData) :
    add_hlist cks w (e :: rest) gsr =
      add_hlist cks (add_horizontal_list_elem cks w e gsr) rest gsr := by
  rw [add_hlist.eq_def]

theorem add_vlist_nil (cks : String → Nat) (w : DVIFileWriter)
    (gsr : Option GlueSetRatioData) : add_vlist cks w [] gsr = w := by
  rw [add_vlist.eq_def]

theorem add_vlist_cons (cks : String → Nat) (w : DVIFileWriter)
    (e : VerticalListElem) (rest : List VerticalListElem)
    (gsr : Option GlueSetRatioData) :
    add_vlist cks w (e :: rest) gsr =
      add_vlist cks (add_vertical_list_elem cks w e gsr) rest gsr := by
  rw [add_vlist.eq_def]

theorem add_helem_char (cks : String → Nat) (w : DVIFileWriter)
    (chr : Nat) (font : String) (gsr : Option GlueSetRatioData) :
    add_horizontal_list_elem cks w (.char chr font) gsr =
      (let w1 := switch_to_font cks w font
       { w1 with commands := w1.commands ++
          [if chr % 256 < 128 then DVICommand.setCharN (chr % 256)
           else DVICommand.set1 (chr % 256)] }) := by
  rw [add_horizontal_list_elem.eq_def]

theorem add_helem_hskip (cks : String → Nat) (w : DVIFileWriter)
    (g : Glue) (gsr : Option GlueSetRatioData) :
    add_horizontal_list_elem cks w (.hskip g) gsr =
      { w with commands := w.commands ++
          [DVICommand.right4 (match gsr with
            | some set_ratio => set_ratio.apply_to_glue g
            | none => g.space)] } := by
  rw [add_horizontal_list_elem.eq_def]

theorem add_helem_box (cks : String → Nat) (w : DVIFileWriter)
    (b : TeXBox) (gsr : Option GlueSetRatioData) :
    add_horizontal_list_elem cks w (.box b) gsr =
      (let w1 := add_box cks w b
       { w1 with commands := w1.commands ++ [DVICommand.right4 b.width] }) := by
  rw [add_horizontal_list_elem.eq_def]

theorem add_velem_vskip (cks : String → Nat) (w : DVIFileWriter)
    (g : Glue) (gsr : Option GlueSetRatioData) :
    add_vertical_list_elem cks w (.vskip g) gsr =
      { w with commands := w.commands ++
          [DVICommand.down4 (match gsr with
            | some set_ratio => set_ratio.apply_to_glue g
            | none => g.space)] } := by
  rw [add_vertical_list_elem.eq_def]

theorem add_velem_box (cks : String → Nat) (w : DVIFileWriter)
    (b : TeXBox) (gsr : Option GlueSetRatioData) :
    add_vertical_list_elem cks w (.box b) gsr =
      (let w1 := add_box cks w b
       { w1 with commands := w1.commands ++
          [DVICommand.down4 (b.height + b.depth)] }) := by
  rw [add_vertical_list_elem.eq_def]

/-! Characterizations of switch_to_font. -/

theorem switch_known (cks : String → Nat) (w : DVIFileWriter) (font : String)
    (n : Int) (h : lookupFont w.font_nums font = some n) :
    switch_to_font cks w font =
      if n = w.curr_font_num then w
      else { w with commands := w.commands ++ [DVICommand.fnt4 n]
                    curr_font_num := n } := by
  unfold switch_to_font
  rw [h]
  by_cases hc : n = w.curr_font_num <;> simp [hc]

theorem switch_fresh (cks : String → Nat) (w : DVIFileWriter) (font : String)
    (h : lookupFont w.font_nums font = none)
    (hne : w.next_font_num ≠ w.curr_font_num) :
    switch_to_font cks w font =
      { w with
          commands := w.commands ++
            [DVICommand.fntDef4 w.next_font_num (cks font) 655360 655360 0
              (font.length % 256) font,
             DVICommand.fnt4 w.next_font_num]
          curr_font_num := w.next_font_num
          next_font_num := w.next_font_num + 1
          font_nums := (font, w.next_font_num) :: w.font_nums } := by
  unfold switch_to_font add_font_def
  rw [h]
  simp [hne]

/-- Under the registry invariant, the next font number is never the
current one, so a fresh font always gets both a FntDef4 and a Fnt4. -/
theorem fontInv_next_ne_curr (w : DVIFileWriter) (h : FontInv w) :
    w.next_font_num ≠ w.curr_font_num := by
  intro heq
  have hnn := h.next_nonneg
  rcases h.curr_ok with hc | hc
  · omega
  · rw [h.defs_consecutive] at hc
    have := mem_intRange _ _ hc
    omega

theorem fontInv_switch (cks : String → Nat) (w : DVIFileWriter) (font : String)
    (h : FontInv w) : FontInv (switch_to_font cks w font) := by
  -- the common final step: appending a single Fnt4 n with n different from
  -- the current font number, to a writer satisfying the invariant, where n
  -- is among the allocated numbers
  have step : ∀ (w1 : DVIFileWriter) (n : Int), FontInv w1 →
      n ≠ w1.curr_font_num →
      n ∈ (fntDefsOf w1.commands).map Prod.fst →
      FontInv { w1 with commands := w1.commands ++ [DVICommand.fnt4 n]
                        curr_font_num := n } := by
    intro w1 n h1 hne hmem
    have hdefs : fntDefsOf (w1.commands ++ [DVICommand.fnt4 n]) =
        fntDefsOf w1.commands := by
      rw [fntDefsOf_append]; simp [fntDefsOf]
    have halb : afterLastBop (w1.commands ++ [DVICommand.fnt4 n]) =
        afterLastBop w1.commands ++ [DVICommand.fnt4 n] := by
      rw [afterLastBop_append_one]; simp [isBopCmd]
    have hfnt4 : fnt4sOf (afterLastBop (w1.commands ++ [DVICommand.fnt4 n])) =
        fnt4sOf (afterLastBop w1.commands) ++ [n] := by
      rw [halb, fnt4sOf_append]; simp [fnt4sOf]
    exact {
      next_nonneg := h1.next_nonneg
      defs_consecutive := by simp only [hdefs]; exact h1.defs_consecutive
      lookup_some := by
        intro f m hf
        simp only [hdefs]
        exact h1.lookup_some f m hf
      lookup_none := by
        intro f hf
        simp only [hdefs]
        exact h1.lookup_none f hf
      curr_ok := by simp only [hdefs]; exact Or.inr hmem
      fnt4_distinct := by
        simp only [hfnt4]
        rw [adjDistinct_concat]
        rw [h1.fnt4_distinct]
        cases hl : (fnt4sOf (afterLastBop w1.commands)).getLast? with
        | none => simp
        | some m =>
            have := h1.curr_last_some m hl
            simp only [Bool.true_and]
            simp only [decide_eq_true_eq]
            omega
      curr_last_some := by
        intro m hm
        simp only [hfnt4, List.getLast?_concat, Option.some.injEq] at hm
        exact hm
      curr_last_none := by
        intro hm
        simp only [hfnt4, List.getLast?_concat] at hm
        exact absurd hm (by simp) }
  cases hl : lookupFont w.font_nums font with
  | some n =>
      rw [switch_known cks w font n hl]
      by_cases hc : n = w.curr_font_num
      · simpa [hc] using h
      · simp only [hc, if_false]
        have hmem : n ∈ (fntDefsOf w.commands).map Prod.fst := by
          have := h.lookup_some font n hl
          have hmem2 : (n, font) ∈ (fntDefsOf w.commands).filter
              (fun pr => pr.2 == font) := by rw [this]; simp
          have := List.mem_of_mem_filter hmem2
          exact List.mem_map_of_mem Prod.fst this
        exact step w n h hc hmem
  | none =>
      have hne := fontInv_next_ne_curr w h
      rw [switch_fresh cks w font hl hne]
      -- split the two appended commands: first the FntDef4, then the Fnt4
      have hdefstep : FontInv { w with
          commands := w.commands ++
            [DVICommand.fntDef4 w.next_font_num (cks font) 655360 655360 0
              (font.length % 256) font]
          next_font_num := w.next_font_num + 1
          font_nums := (font, w.next_font_num) :: w.font_nums } := by
        have hdefs : fntDefsOf (w.commands ++
            [DVICommand.fntDef4 w.next_font_num (cks font) 655360 655360 0
              (font.length % 256) font]) =
            fntDefsOf w.commands ++ [(w.next_font_num, font)] := by
          rw [fntDefsOf_append]; simp [fntDefsOf]
        have halb : afterLastBop (w.commands ++
            [DVICommand.fntDef4 w.next_font_num (cks font) 655360 655360 0
              (font.length % 256) font]) =
            afterLastBop w.commands ++
            [DVICommand.fntDef4 w.next_font_num (cks font) 655360 655360 0
              (font.length % 256) font] := by
          rw [afterLastBop_append_one]; simp [isBopCmd]
        have hfnt4 : fnt4sOf (afterLastBop (w.commands ++
            [DVICommand.fntDef4 w.next_font_num (cks font) 655360 655360 0
              (font.length % 256) font])) =
            fnt4sOf (afterLastBop w.commands) := by
          rw [halb, fnt4sOf_append]; simp [fnt4sOf]
        exact {
          next_nonneg := by
            have hnn := h.next_nonneg
            show 0 ≤ w.next_font_num + 1
            omega
          defs_consecutive := by
            have hnn := h.next_nonneg
            have htn : (w.next_font_num + 1).toNat = w.next_font_num.toNat + 1 := by
              omega
            have hcast : ((w.next_font_num.toNat : Int)) = w.next_font_num :=
              Int.toNat_of_nonneg hnn
            simp only [hdefs, List.map_append, h.defs_consecutive, htn,
              intRange, hcast, List.map_cons, List.map_nil]
          lookup_some := by
            intro f m hf
            simp only [hdefs, List.filter_append]
            by_cases hfeq : font = f
            · subst hfeq
              simp only [lookupFont] at hf
              simp at hf
              rw [h.lookup_none font hl]
              simp [hf]
            · simp only [lookupFont] at hf
              rw [if_neg hfeq] at hf
              rw [h.lookup_some f m hf]
              have : ((w.next_font_num, font).2 == f) = false := by
                simp [hfeq]
              simp [this]
          lookup_none := by
            intro f hf
            simp only [hdefs, List.filter_append]
            simp only [lookupFont] at hf
            by_cases hfeq : font = f
            · rw [if_pos hfeq] at hf
              exact absurd hf (by simp)
            · rw [if_neg hfeq] at hf
              rw [h.lookup_none f hf]
              have : ((w.next_font_num, font).2 == f) = false := by
                simp [hfeq]
              simp [this]
          curr_ok := by
            simp only [hdefs, List.map_append]
            rcases h.curr_ok with hc | hc
            · exact Or.inl hc
            · exact Or.inr (List.mem_append_left _ hc)
          fnt4_distinct := by simp only [hfnt4]; exact h.fnt4_distinct
          curr_last_some := by
            intro m hm
            simp only [hfnt4] at hm
            exact h.curr_last_some m hm
          curr_last_none := by
            intro hm
            simp only [hfnt4] at hm
            exact h.curr_last_none hm }
      have hfinal := step _ w.next_font_num hdefstep
        (by simpa using hne)
        (by
          have hdefs : fntDefsOf (w.commands ++
              [DVICommand.fntDef4 w.next_font_num (cks font) 655360 655360 0
                (font.length % 256) font]) =
              fntDefsOf w.commands ++ [(w.next_font_num, font)] := by
            rw [fntDefsOf_append]; simp [fntDefsOf]
          simp only [hdefs, List.map_append]
          simp)
      -- reassociate the two single-command appends into one double append
      have : { w with
          commands := w.commands ++
            [DVICommand.fntDef4 w.next_font_num (cks font) 655360 655360 0
              (font.length % 256) font] ++ [DVICommand.fnt4 w.next_font_num]
          curr_font_num := w.next_font_num
          next_font_num := w.next_font_num + 1
          font_nums := (font, w.next_font_num) :: w.font_nums } =
        { w with
          commands := w.commands ++
            [DVICommand.fntDef4 w.next_font_num (cks font) 655360 655360 0
              (font.length % 256) font,
             DVICommand.fnt4 w.next_font_num]
          curr_font_num := w.next_font_num
          next_font_num := w.next_font_num + 1
          font_nums := (font, w.next_font_num) :: w.font_nums } := by
        simp
      rw [← this]
      exact hfinal

/-- One serializer step extends the command stream by a balanced,
Bop-free delta, preserves last_page_start and stack_depth, and preserves
the font-registry invariant. -/
structure ExtendsOk (w w2 : DVIFileWriter) : Prop where
  delta : ∃ Δ, w2.commands = w.commands ++ Δ
    ∧ (∀ c ∈ Δ, isBopCmd c = false)
    ∧ countPush Δ = countPop Δ
  lps : w2.last_page_start = w.last_page_start
  depth : w2.stack_depth = w.stack_depth
  inv : FontInv w → FontInv w2

theorem extendsOk_refl (w : DVIFileWriter) : ExtendsOk w w :=
  { delta := ⟨[], by simp, by simp, rfl⟩
    lps := rfl
    depth := rfl
    inv := fun h => h }

theorem extendsOk_trans {w w2 w3 : DVIFileWriter}
    (h1 : ExtendsOk w w2) (h2 : ExtendsOk w2 w3) : ExtendsOk w w3 :=
  { delta := by
      obtain ⟨d1, he1, hb1, hc1⟩ := h1.delta
      obtain ⟨d2, he2, hb2, hc2⟩ := h2.delta
      refine ⟨d1 ++ d2, ?_, ?_, ?_⟩
      · rw [he2, he1, List.append_assoc]
      · intro c hc
        rcases List.mem_append.mp hc with h | h
        · exact hb1 c h
        · exact hb2 c h
      · rw [countPush_append, countPop_append, hc1, hc2]
    lps := h2.lps.trans h1.lps
    depth := h2.depth.trans h1.depth
    inv := fun h => h2.inv (h1.inv h) }

theorem countPush_quiet (c : DVICommand) (h : isPushCmd c = false) :
    countPush [c] = 0 := by
  simp [countPush, h]

theorem countPop_quiet (c : DVICommand) (h : isPopCmd c = false) :
    countPop [c] = 0 := by
  simp [countPop, h]

/-- Appending one command that is neither Push, Pop, Bop, Fnt4 nor
FntDef4 is a balanced, invariant-preserving step. -/
theorem extendsOk_append_quiet (w : DVIFileWriter) (c : DVICommand)
    (hn : fontNeutral c = true) (hpush : isPushCmd c = false)
    (hpop : isPopCmd c = false) :
    ExtendsOk w { w with commands := w.commands ++ [c] } :=
  { delta := ⟨[c], rfl, by
      intro d hd
      rw [List.mem_singleton.mp hd]
      exact isBopCmd_of_neutral c hn,
      by rw [countPush_quiet c hpush, countPop_quiet c hpop]⟩
    lps := rfl
    depth := rfl
    inv := fontInv_append_neutral w c hn }

theorem switch_ext (cks : String → Nat) (w : DVIFileWriter) (font : String) :
    ExtendsOk w (switch_to_font cks w font) := by
  refine { delta := ?_, lps := ?_, depth := ?_,
           inv := fontInv_switch cks w font }
  all_goals
    unfold switch_to_font add_font_def
    cases hl : lookupFont w.font_nums font
  case refine_1.none =>
    by_cases hc : w.next_font_num = w.curr_font_num
    · refine ⟨[DVICommand.fntDef4 w.next_font_num (cks font) 655360 655360 0
        (font.length % 256) font], ?_, ?_, ?_⟩ <;>
        simp [hc, isBopCmd, countPush, countPop, isPushCmd, isPopCmd]
    · refine ⟨[DVICommand.fntDef4 w.next_font_num (cks font) 655360 655360 0
        (font.length % 256) font, DVICommand.fnt4 w.next_font_num], ?_, ?_, ?_⟩ <;>
        simp [hc, isBopCmd, countPush, countPop, isPushCmd, isPopCmd]
  case refine_1.some n =>
    by_cases hc : n = w.curr_font_num
    · exact ⟨[], by simp [hc], by simp, rfl⟩
    · exact ⟨[DVICommand.fnt4 n], by simp [hc], by
        intro d hd
        rw [List.mem_singleton.mp hd]
        rfl, by simp [countPush, countPop, isPushCmd, isPopCmd]⟩
  case refine_2.none =>
    by_cases hc : w.next_font_num = w.curr_font_num <;> simp [hc]
  case refine_2.some n =>
    by_cases hc : n = w.curr_font_num <;> simp [hc]
  case refine_3.none =>
    by_cases hc : w.next_font_num = w.curr_font_num <;> simp [hc]
  case refine_3.some n =>
    by_cases hc : n = w.curr_font_num <;> simp [hc]

mutual
theorem add_box_ext (cks : String → Nat) (b : TeXBox) :
    ∀ w : DVIFileWriter, ∃ inner,
      (add_box cks w b).commands =
        w.commands ++ (DVICommand.push :: (inner ++ [DVICommand.pop]))
      ∧ (∀ c ∈ inner, isBopCmd c = false)
      ∧ countPush inner = countPop inner
      ∧ (add_box cks w b).last_page_start = w.last_page_start
      ∧ (add_box cks w b).stack_depth = w.stack_depth
      ∧ (FontInv w → FontInv (add_box cks w b)) := by
  intro w
  cases b with
  | horizontalBox h d wd list gsr =>
      have hl := add_hlist_ext cks list gsr
        { w with commands := w.commands ++ [DVICommand.push] }
      obtain ⟨Δ, he, hb, hc⟩ := hl.delta
      refine ⟨Δ, ?_, hb, hc, ?_, ?_, ?_⟩
      · rw [add_box_hbox]
        simp only [he]
        simp
      · rw [add_box_hbox]
        simp only [hl.lps]
      · rw [add_box_hbox]
        simp only [hl.depth]
      · intro hI
        rw [add_box_hbox]
        refine fontInv_append_neutral _ _ rfl ?_
        exact hl.inv (fontInv_append_neutral _ _ rfl hI)
  | verticalBox h d wd list gsr =>
      have hl := add_vlist_ext cks list gsr
        { w with commands := w.commands ++ [DVICommand.push] }
      obtain ⟨Δ, he, hb, hc⟩ := hl.delta
      refine ⟨Δ, ?_, hb, hc, ?_, ?_, ?_⟩
      · rw [add_box_vbox]
        simp only [he]
        simp
      · rw [add_box_vbox]
        simp only [hl.lps]
      · rw [add_box_vbox]
        simp only [hl.depth]
      · intro hI
        rw [add_box_vbox]
        refine fontInv_append_neutral _ _ rfl ?_
        exact hl.inv (fontInv_append_neutral _ _ rfl hI)

theorem add_hlist_ext (cks : String → Nat) (l : List HorizontalListElem)
    (gsr : Option GlueSetRatioData) :
    ∀ w : DVIFileWriter, ExtendsOk w (add_hlist cks w l gsr) := by
  intro w
  cases l with
  | nil =>
      rw [add_hlist_nil]
      exact extendsOk_refl w
  | cons e rest =>
      rw [add_hlist_cons]
      exact extendsOk_trans (add_helem_ext cks e gsr w)
        (add_hlist_ext cks rest gsr _)

theorem add_vlist_ext (cks : String → Nat) (l : List VerticalListElem)
    (gsr : Option GlueSetRatioData) :
    ∀ w : DVIFileWriter, ExtendsOk w (add_vlist cks w l gsr) := by
  intro w
  cases l with
  | nil =>
      rw [add_vlist_nil]
      exact extendsOk_refl w
  | cons e rest =>
      rw [add_vlist_cons]
      exact extendsOk_trans (add_velem_ext cks e gsr w)
        (add_vlist_ext cks rest gsr _)

theorem add_helem_ext (cks : String → Nat) (e : HorizontalListElem)
    (gsr : Option GlueSetRatioData) :
    ∀ w : DVIFileWriter, ExtendsOk w (add_horizontal_list_elem cks w e gsr) := by
  intro w
  cases e with
  | char chr font =>
      rw [add_helem_char]
      refine extendsOk_trans (switch_ext cks w font) ?_
      by_cases hc : chr % 256 < 128 <;>
        simp only [hc, if_true, if_false] <;>
        exact extendsOk_append_quiet _ _ rfl rfl rfl
  | hskip g =>
      rw [add_helem_hskip]
      exact extendsOk_append_quiet _ _ rfl rfl rfl
  | box b =>
      rw [add_helem_box]
      obtain ⟨inner, he, hb, hc, hlps, hdep, hinv⟩ := add_box_ext cks b w
      refine extendsOk_trans ?_
        (extendsOk_append_quiet (add_box cks w b) _ rfl rfl rfl)
      refine { delta := ?_, lps := hlps, depth := hdep, inv := hinv }
      refine ⟨DVICommand.push :: (inner ++ [DVICommand.pop]), he, ?_, ?_⟩
      · intro c hcm
        rcases List.mem_cons.mp hcm with h | h
        · rw [h]; rfl
        · rcases List.mem_append.mp h with h | h
          · exact hb c h
          · rw [List.mem_singleton.mp h]; rfl
      · show countPush (DVICommand.push :: (inner ++ [DVICommand.pop])) =
          countPop (DVICommand.push :: (inner ++ [DVICommand.pop]))
        simp only [countPush, countPop, countPush_append, countPop_append]
        simp [isPushCmd, isPopCmd, hc]
        omega

theorem add_velem_ext (cks : String → Nat) (e : VerticalListElem)
    (gsr : Option GlueSetRatioData) :
    ∀ w : DVIFileWriter, ExtendsOk w (add_vertical_list_elem cks w e gsr) := by
  intro w
  cases e with
  | vskip g =>
      rw [add_velem_vskip]
      exact extendsOk_append_quiet _ _ rfl rfl rfl
  | box b =>
      rw [add_velem_box]
      obtain ⟨inner, he, hb, hc, hlps, hdep, hinv⟩ := add_box_ext cks b w
      refine extendsOk_trans ?_
        (extendsOk_append_quiet (add_box cks w b) _ rfl rfl rfl)
      refine { delta := ?_, lps := hlps, depth := hdep, inv := hinv }
      refine ⟨DVICommand.push :: (inner ++ [DVICommand.pop]), he, ?_, ?_⟩
      · intro c hcm
        rcases List.mem_cons.mp hcm with h | h
        · rw [h]; rfl
        · rcases List.mem_append.mp h with h | h
          · exact hb c h
          · rw [List.mem_singleton.mp h]; rfl
      · show countPush (DVICommand.push :: (inner ++ [DVICommand.pop])) =
          countPop (DVICommand.push :: (inner ++ [DVICommand.pop]))
        simp only [countPush, countPop, countPush_append, countPop_append]
        simp [isPushCmd, isPopCmd, hc]
        omega
end

/-! add_page-level lemmas. -/

/-- The writer state just after the Bop of a page: last_page_start points
at the new Bop, the Bop carries the old value, the current font is unset. -/
def pageStart (w : DVIFileWriter) (cs : List Int) : DVIFileWriter :=
  { w with
      last_page_start := (byteSum w.commands : Int)
      commands := w.commands ++ [DVICommand.bop cs w.last_page_start]
      curr_font_num := -1 }

theorem add_page_eq (cks : String → Nat) (w : DVIFileWriter) (page : TeXBox)
    (cs : List Int) :
    add_page cks w page cs =
      (let w3 := add_box cks (pageStart w cs) page
       { w3 with commands := w3.commands ++ [DVICommand.eop] }) := rfl

theorem fontInv_pageStart (w : DVIFileWriter) (cs : List Int)
    (h : FontInv w) : FontInv (pageStart w cs) := by
  have hdefs : fntDefsOf (w.commands ++ [DVICommand.bop cs w.last_page_start]) =
      fntDefsOf w.commands := by
    rw [fntDefsOf_append]; simp [fntDefsOf]
  have halb : afterLastBop (w.commands ++ [DVICommand.bop cs w.last_page_start]) =
      [] := by
    rw [afterLastBop_append_one]; simp [isBopCmd]
  exact {
    next_nonneg := h.next_nonneg
    defs_consecutive := by simp only [pageStart, hdefs]; exact h.defs_consecutive
    lookup_some := by
      intro f n hf
      simp only [pageStart, hdefs]
      exact h.lookup_some f n hf
    lookup_none := by
      intro f hf
      simp only [pageStart, hdefs]
      exact h.lookup_none f hf
    curr_ok := Or.inl rfl
    fnt4_distinct := by
      simp only [pageStart, halb]
      simp [fnt4sOf, adjDistinct]
    curr_last_some := by
      intro n hn
      simp only [pageStart, halb] at hn
      simp [fnt4sOf] at hn
    curr_last_none := fun _ => rfl }

theorem fontInv_add_page (cks : String → Nat) (w : DVIFileWriter)
    (page : TeXBox) (cs : List Int) (h : FontInv w) :
    FontInv (add_page cks w page cs) := by
  rw [add_page_eq]
  obtain ⟨inner, he, hb, hc, hlps, hdep, hinv⟩ :=
    add_box_ext cks page (pageStart w cs)
  exact fontInv_append_neutral _ _ rfl (hinv (fontInv_pageStart w cs h))

theorem fontInv_applyOp (cks : String → Nat) (w : DVIFileWriter)
    (op : WriterOp) (h : FontInv w) : FontInv (applyOp cks w op) := by
  cases op with
  | switchFont font => exact fontInv_switch cks w font h
  | addBox b =>
      obtain ⟨inner, he, hb, hc, hlps, hdep, hinv⟩ := add_box_ext cks b w
      exact hinv h
  | addHElem e gsr => exact (add_helem_ext cks e gsr w).inv h
  | addVElem e gsr => exact (add_velem_ext cks e gsr w).inv h
  | addPage page cs => exact fontInv_add_page cks w page cs h

theorem fontInv_runOps (cks : String → Nat) (ops : List WriterOp) :
    FontInv (runOps cks ops) := by
  have key : ∀ (ops : List WriterOp) (w : DVIFileWriter), FontInv w →
      FontInv (ops.foldl (applyOp cks) w) := by
    intro ops
    induction ops with
    | nil => intro w h; exact h
    | cons op rest ih =>
        intro w h
        exact ih _ (fontInv_applyOp cks w op h)
  exact key ops DVIFileWriter.new fontInv_new

/-! The Bop back-pointer chain. -/

theorem bopOffsets_no_bop (off : Int) (l : List DVICommand)
    (h : ∀ c ∈ l, isBopCmd c = false) : bopOffsets off l = [] := by
  induction l generalizing off with
  | nil => rfl
  | cons c rest ih =>
      have hc : isBopCmd c = false := h c (by simp)
      have hrest : ∀ d ∈ rest, isBopCmd d = false := by
        intro d hd; exact h d (by simp [hd])
      cases c <;> simp_all [bopOffsets, isBopCmd]

/-- The back-pointer chain invariant: the Bop pointers replay the Bop
offsets shifted by one (starting at -1), and last_page_start holds the
offset of the most recent Bop (-1 when there is none). -/
def ChainInv (w : DVIFileWriter) : Prop :=
  (bopOffsets 0 w.commands).map Prod.snd =
    ((-1 : Int) :: (bopOffsets 0 w.commands).map Prod.fst).dropLast
  ∧ ((-1 : Int) :: (bopOffsets 0 w.commands).map Prod.fst).getLast? =
    some w.last_page_start

theorem chainInv_new : ChainInv DVIFileWriter.new := by
  constructor <;> simp [DVIFileWriter.new, bopOffsets]

theorem dropLast_concat_of_getLast {L : List Int} {x : Int}
    (h : L.getLast? = some x) : L.dropLast ++ [x] = L := by
  induction L with
  | nil => simp at h
  | cons a rest ih =>
      cases rest with
      | nil => simp at h; simp [h]
      | cons b r =>
          rw [List.getLast?_cons_cons] at h
          have hih := ih h
          simp only [List.dropLast_cons₂, List.cons_append, hih]

/-- Appending a Bop-free delta without touching last_page_start preserves
the chain invariant. -/
theorem chainInv_extends {w w2 : DVIFileWriter} (hx : ExtendsOk w w2)
    (h : ChainInv w) : ChainInv w2 := by
  obtain ⟨Δ, he, hb, _⟩ := hx.delta
  have hoff : bopOffsets 0 w2.commands = bopOffsets 0 w.commands := by
    rw [he, bopOffsets_append, bopOffsets_no_bop _ _ hb, List.append_nil]
  exact ⟨by rw [hoff]; exact h.1, by rw [hoff, hx.lps]; exact h.2⟩

theorem chainInv_add_page (cks : String → Nat) (w : DVIFileWriter)
    (page : TeXBox) (cs : List Int) (h : ChainInv w) :
    ChainInv (add_page cks w page cs) := by
  rw [add_page_eq]
  obtain ⟨inner, he, hb, hc, hlps, hdep, hinv⟩ :=
    add_box_ext cks page (pageStart w cs)
  have hmid : ChainInv (pageStart w cs) := by
    have hoff : bopOffsets 0 (pageStart w cs).commands =
        bopOffsets 0 w.commands ++ [((byteSum w.commands : Int), w.last_page_start)] := by
      show bopOffsets 0 (w.commands ++ [DVICommand.bop cs w.last_page_start]) = _
      rw [bopOffsets_append]
      simp [bopOffsets]
    constructor
    · rw [hoff, List.map_append, List.map_append, h.1]
      have h2 := h.2
      simp only [List.map_cons, List.map_nil]
      rw [show ((-1 : Int) :: ((bopOffsets 0 w.commands).map Prod.fst ++
        [(byteSum w.commands : Int)])) =
        (((-1 : Int) :: (bopOffsets 0 w.commands).map Prod.fst) ++
          [(byteSum w.commands : Int)]) from by simp]
      rw [List.dropLast_concat]
      exact dropLast_concat_of_getLast h2
    · rw [hoff, List.map_append]
      show ((-1 : Int) :: ((bopOffsets 0 w.commands).map Prod.fst ++
        [(byteSum w.commands : Int)])).getLast? = some (pageStart w cs).last_page_start
      rw [show ((-1 : Int) :: ((bopOffsets 0 w.commands).map Prod.fst ++
        [(byteSum w.commands : Int)])) =
        (((-1 : Int) :: (bopOffsets 0 w.commands).map Prod.fst) ++
          [(byteSum w.commands : Int)]) from by simp]
      rw [List.getLast?_concat]
      rfl
  -- the box body and the Eop are Bop-free and do not touch last_page_start
  have hbox : ChainInv (add_box cks (pageStart w cs) page) := by
    refine chainInv_extends ?_ hmid
    exact {
      delta := ⟨DVICommand.push :: (inner ++ [DVICommand.pop]), he, by
        intro c hcm
        rcases List.mem_cons.mp hcm with h1 | h1
        · rw [h1]; rfl
        · rcases List.mem_append.mp h1 with h1 | h1
          · exact hb c h1
          · rw [List.mem_singleton.mp h1]; rfl, by
        simp only [countPush, countPop, countPush_append, countPop_append]
        simp [isPushCmd, isPopCmd, hc]
        omega⟩
      lps := hlps
      depth := hdep
      inv := hinv }
  refine chainInv_extends ?_ hbox
  exact extendsOk_append_quiet _ _ rfl rfl rfl

theorem chainInv_add_pages (cks : String → Nat)
    (ps : List (TeXBox × List Int)) :
    ∀ w, ChainInv w → ChainInv (add_pages cks w ps) := by
  induction ps with
  | nil => intro w h; exact h
  | cons p rest ih =>
      intro w h
      rw [add_pages]
      exact ih _ (chainInv_add_page cks w p.1 p.2 h)

/-! Bop-freeness of page-free sessions. -/

/-- Whether an operation is an add_page call. -/
def isPageOp : WriterOp → Bool
  | .addPage _ _ => true
  | _ => false

theorem noBop_runOps (cks : String → Nat) (ops : List WriterOp)
    (h : ∀ op ∈ ops, isPageOp op = false) :
    ∀ c ∈ (runOps cks ops).commands, isBopCmd c = false := by
  have key : ∀ (ops : List WriterOp) (w : DVIFileWriter),
      (∀ op ∈ ops, isPageOp op = false) →
      (∀ c ∈ w.commands, isBopCmd c = false) →
      ∀ c ∈ (ops.foldl (applyOp cks) w).commands, isBopCmd c = false := by
    intro ops
    induction ops with
    | nil => intro w _ hw; exact hw
    | cons op rest ih =>
        intro w hops hw
        have hop : isPageOp op = false := hops op (by simp)
        have hrest : ∀ o ∈ rest, isPageOp o = false := by
          intro o ho; exact hops o (by simp [ho])
        refine ih _ hrest ?_
        have hx : ExtendsOk w (applyOp cks w op) := by
          cases op with
          | switchFont font => exact switch_ext cks w font
          | addBox b =>
              obtain ⟨inner, he, hb, hc, hlps, hdep, hinv⟩ := add_box_ext cks b w
              exact {
                delta := ⟨DVICommand.push :: (inner ++ [DVICommand.pop]), he, by
                  intro c hcm
                  rcases List.mem_cons.mp hcm with h1 | h1
                  · rw [h1]; rfl
                  · rcases List.mem_append.mp h1 with h1 | h1
                    · exact hb c h1
                    · rw [List.mem_singleton.mp h1]; rfl, by
                  simp only [countPush, countPop, countPush_append,
                    countPop_append]
                  simp [isPushCmd, isPopCmd, hc]
                  omega⟩
                lps := hlps
                depth := hdep
                inv := hinv }
          | addHElem e gsr => exact add_helem_ext cks e gsr w
          | addVElem e gsr => exact add_velem_ext cks e gsr w
          | addPage page cs => exact absurd hop (by simp [isPageOp])
        obtain ⟨Δ, he, hb, _⟩ := hx.delta
        rw [he]
        intro c hcm
        rcases List.mem_append.mp hcm with h1 | h1
        · exact hw c h1
        · exact hb c h1
  exact key ops DVIFileWriter.new h (by simp [DVIFileWriter.new])

/-! Unfolding equations for the math translator. -/

theorem normField_box (env : MathEnv) (style : MathStyle) (b : TeXBox) :
    normField env style (.teXBox b) = .ok (.teXBox b) := by
  rw [normField.eq_def]

theorem normField_symbol (env : MathEnv) (style : MathStyle) (s : MathSymbol) :
    normField env style (.symbol s) =
      .ok (.teXBox (.horizontalBox
        (env.charBoxDims s.position_number env.currentFont).1
        (env.charBoxDims s.position_number env.currentFont).2.1
        (env.charBoxDims s.position_number env.currentFont).2.2
        [.char s.position_number env.currentFont] none)) := by
  rw [normField.eq_def]

theorem normField_mathList (env : MathEnv) (style : MathStyle)
    (l : List MathListElem) :
    normField env style (.mathList l) =
      match convertMathList env style l with
      | .ok hlist =>
          .ok (.teXBox (.horizontalBox (env.combineDims hlist).1
            (env.combineDims hlist).2.1 (env.combineDims hlist).2.2 hlist none))
      | .error e => .error e := by
  rw [normField.eq_def]

theorem normNucleus_none (env : MathEnv) (style : MathStyle) :
    normNucleus env style none = .ok none := by
  rw [normNucleus.eq_def]

theorem normNucleus_some (env : MathEnv) (style : MathStyle) (f : MathField) :
    normNucleus env style (some f) =
      match normField env style f with
      | .ok f2 => .ok (some f2)
      | .error e => .error e := by
  rw [normNucleus.eq_def]

theorem pass1_nil (env : MathEnv) (style : MathStyle) :
    pass1 env style [] = .ok [] := by
  rw [pass1.eq_def]

theorem pass1_style (env : MathEnv) (style s : MathStyle)
    (rest : List MathListElem) :
    pass1 env style (.styleChange s :: rest) =
      match pass1 env s rest with
      | .ok r => .ok (.styleChange s :: r)
      | .error e => .error e := by
  rw [pass1.eq_def]

theorem pass1_atom (env : MathEnv) (style : MathStyle) (kind : AtomKind)
    (nucleus sub sup : Option MathField) (rest : List MathListElem) :
    pass1 env style (.atom kind nucleus sub sup :: rest) =
      match normNucleus env style nucleus with
      | .error e => .error e
      | .ok nucleus2 =>
          if sub.isSome || sup.isSome then
            .error "Unimplemented superscript/subscript"
          else
            match pass1 env style rest with
            | .ok r => .ok (.atom kind nucleus2 sub sup :: r)
            | .error e => .error e := by
  rw [pass1.eq_def]

theorem convertMathList_eq (env : MathEnv) (start_style : MathStyle)
    (list : List MathListElem) :
    convertMathList env start_style list =
      match pass1 env start_style list with
      | .ok l2 => pass2 none start_style l2
      | .error e => .error e := by
  rw [convertMathList.eq_def]

/-- A successful nucleus normalization always produces a box. -/
theorem normField_ok_box (env : MathEnv) (style : MathStyle) (f f2 : MathField)
    (h : normField env style f = .ok f2) : ∃ b, f2 = .teXBox b := by
  cases f with
  | symbol s =>
      rw [normField_symbol] at h
      exact ⟨_, (by injection h with h2; exact h2.symm)⟩
  | teXBox b =>
      rw [normField_box] at h
      exact ⟨b, (by injection h with h2; exact h2.symm)⟩
  | mathList l =>
      rw [normField_mathList] at h
      cases hc : convertMathList env style l with
      | ok hlist =>
          rw [hc] at h
          exact ⟨_, (by injection h with h2; exact h2.symm)⟩
      | error e =>
          rw [hc] at h
          exact absurd h (by simp)

/-- A nucleus that is a box or a symbol normalizes successfully, to the
same box in every style. -/
theorem normField_boxOrSym (env : MathEnv) (f : MathField) (h : BoxOrSym f) :
    ∃ b, ∀ style, normField env style f = .ok (.teXBox b) := by
  rcases h with ⟨b, rfl⟩ | ⟨s, rfl⟩
  · exact ⟨b, fun style => normField_box env style b⟩
  · exact ⟨_, fun style => normField_symbol env style s⟩

/-- Pass 1 fails whenever some element carries a subscript or a
superscript. -/
theorem pass1_error_of_script (env : MathEnv) (l : List MathListElem)
    (h : l.any elemHasScript = true) :
    ∀ style, ∃ msg, pass1 env style l = .error msg := by
  induction l with
  | nil => simp at h
  | cons e rest ih =>
      intro style
      simp only [List.any_cons, Bool.or_eq_true] at h
      cases e with
      | styleChange s =>
          have hrest : rest.any elemHasScript = true := by
            rcases h with h | h
            · simp [elemHasScript, elemHasSub, elemHasSup] at h
            · exact h
          obtain ⟨msg, hmsg⟩ := ih hrest s
          refine ⟨msg, ?_⟩
          rw [pass1_style, hmsg]
      | atom kind nucleus sub sup =>
          rw [pass1_atom]
          cases hn : normNucleus env style nucleus with
          | error e => simp only [hn]; exact ⟨e, rfl⟩
          | ok nucleus2 =>
              simp only [hn]
              by_cases hs : (sub.isSome || sup.isSome) = true
              · refine ⟨"Unimplemented superscript/subscript", ?_⟩
                simp [hs]
              · have hrest : rest.any elemHasScript = true := by
                  rcases h with h | h
                  · exfalso
                    apply hs
                    simpa [elemHasScript, elemHasSub, elemHasSup] using h
                  · exact h
                obtain ⟨msg, hmsg⟩ := ih hrest style
                refine ⟨msg, ?_⟩
                rw [if_neg hs, hmsg]

/-- After a successful pass 1, every atom's nucleus is absent or a box. -/
theorem pass1_ok_nuclei (env : MathEnv) (l : List MathListElem) :
    ∀ (style : MathStyle) (l2 : List MathListElem),
      pass1 env style l = .ok l2 → ∀ e ∈ l2, nucleusBoxOrNone e := by
  induction l with
  | nil =>
      intro style l2 h e he
      rw [pass1_nil] at h
      injection h with h2
      rw [← h2] at he
      simp at he
  | cons el rest ih =>
      intro style l2 h e he
      cases el with
      | styleChange s =>
          rw [pass1_style] at h
          cases hr : pass1 env s rest with
          | ok r =>
              simp only [hr] at h
              injection h with h2
              rw [← h2] at he
              rcases List.mem_cons.mp he with he1 | he1
              · rw [he1]; trivial
              · exact ih s r hr e he1
          | error msg => simp [hr] at h
      | atom kind nucleus sub sup =>
          rw [pass1_atom] at h
          cases hn : normNucleus env style nucleus with
          | error msg => simp [hn] at h
          | ok nucleus2 =>
              simp only [hn] at h
              by_cases hs : (sub.isSome || sup.isSome) = true
              · simp [hs] at h
              · rw [if_neg hs] at h
                cases hr : pass1 env style rest with
                | ok r =>
                    simp only [hr] at h
                    injection h with h2
                    rw [← h2] at he
                    rcases List.mem_cons.mp he with he1 | he1
                    · rw [he1]
                      show nucleus2 = none ∨ ∃ b, nucleus2 = some (.teXBox b)
                      cases nucleus with
                      | none =>
                          rw [normNucleus_none] at hn
                          injection hn with h3
                          exact Or.inl h3.symm
                      | some f =>
                          rw [normNucleus_some] at hn
                          cases hf : normField env style f with
                          | ok f2 =>
                              simp only [hf] at hn
                              injection hn with h3
                              obtain ⟨b, hb⟩ := normField_ok_box env style f f2 hf
                              exact Or.inr ⟨b, by rw [← h3, hb]⟩
                          | error msg => simp [hf] at hn
                    · exact ih style r hr e he1
                | error msg => simp [hr] at h

/-! Concrete inputs used by witnesses and counterexamples. -/

/-- A concrete checksum oracle: every font has checksum 0. -/
def cks0 : String → Nat := fun _ => 0

/-- A concrete math environment: current font cmr10, all layout
dimensions 0. -/
def env0 : MathEnv := ⟨"cmr10", fun _ _ => (0, 0, 0), fun _ => (0, 0, 0)⟩

/-- A concrete parser state: every character has math code 0x7161, no
chardefs, scope depth 0. -/
def st0 : ParserState := ⟨fun _ => 0x7161, fun _ => none, 0⟩

/-! The claims. -/

/-- C8: For every HSkip(glue) element, add_horizontal_list_elem emits
exactly one Right4 whose operand is the glue after applying the parent
box's glue-set ratio when the ratio is present, and glue.space (the
natural length, in scaled points) when the ratio is None;
add_vertical_list_elem on VSkip(glue) behaves identically but emits
Down4. -/
theorem c8_skip_commands :
    ∀ (cks : String → Nat) (w : DVIFileWriter) (g : Glue)
      (gsr : Option GlueSetRatioData),
      (add_horizontal_list_elem cks w (.hskip g) gsr).commands =
        w.commands ++ [DVICommand.right4 (match gsr with
          | some sr => sr.apply_to_glue g
          | none => g.space)]
      ∧ (add_vertical_list_elem cks w (.vskip g) gsr).commands =
        w.commands ++ [DVICommand.down4 (match gsr with
          | some sr => sr.apply_to_glue g
          | none => g.space)] := by
  intro cks w g gsr
  constructor
  · rw [add_helem_hskip]
  · rw [add_velem_vskip]

/-- C10: For every Char element, the DVI serializer reduces the character
code modulo 256 before emitting it, and the 128 threshold for choosing
SetCharN versus Set1 is applied to the reduced value; a character with
code 300 emits SetCharN(44), so character codes at or above 256 are never
emitted in full. -/
theorem c10_char_mod256 :
    ∀ (cks : String → Nat) (w : DVIFileWriter) (chr : Nat) (font : String)
      (gsr : Option GlueSetRatioData),
      (add_horizontal_list_elem cks w (.char chr font) gsr).commands =
        (switch_to_font cks w font).commands ++
          [if chr % 256 < 128 then DVICommand.setCharN (chr % 256)
           else DVICommand.set1 (chr % 256)]
      ∧ (add_horizontal_list_elem cks w (.char 300 font) gsr).commands =
        (switch_to_font cks w font).commands ++ [DVICommand.setCharN 44] := by
  intro cks w chr font gsr
  constructor
  · rw [add_helem_char]
  · rw [add_helem_char]
    norm_num

/-- C7 counterexample: the claim reads the emitted character command off
the raw code (SetCharN(chr) iff chr < 128, Set1(chr) otherwise), but at
chr = 300 the code emits SetCharN(44) after the u8 cast, not Set1(300). -/
theorem c7_counterexample :
    (add_horizontal_list_elem cks0 DVIFileWriter.new
        (.char 300 "cmr10") none).commands =
      (switch_to_font cks0 DVIFileWriter.new "cmr10").commands ++
        [DVICommand.setCharN 44]
    ∧ (add_horizontal_list_elem cks0 DVIFileWriter.new
        (.char 300 "cmr10") none).commands ≠
      (switch_to_font cks0 DVIFileWriter.new "cmr10").commands ++
        [DVICommand.set1 300] := by
  constructor
  · rw [add_helem_char]
    norm_num
  · rw [add_helem_char]
    norm_num
    intro h
    simp at h

/-- C7 (amended to character codes below 256, as the modulo-256 cast
forces): for every Char element with chr < 256, add_horizontal_list_elem
first switches to the element's font and then emits exactly one character
command, SetCharN(chr) if chr < 128 and Set1(chr) otherwise; a character
with code 200 produces Set1(200). -/
theorem c7_char_commands :
    (∀ (cks : String → Nat) (w : DVIFileWriter) (chr : Nat) (font : String)
      (gsr : Option GlueSetRatioData), chr < 256 →
      (add_horizontal_list_elem cks w (.char chr font) gsr).commands =
        (switch_to_font cks w font).commands ++
          [if chr < 128 then DVICommand.setCharN chr else DVICommand.set1 chr])
    ∧ (∀ (cks : String → Nat) (w : DVIFileWriter) (font : String)
      (gsr : Option GlueSetRatioData),
      (add_horizontal_list_elem cks w (.char 200 font) gsr).commands =
        (switch_to_font cks w font).commands ++ [DVICommand.set1 200]) := by
  constructor
  · intro cks w chr font gsr h
    rw [add_helem_char]
    rw [Nat.mod_eq_of_lt h]
  · intro cks w font gsr
    rw [add_helem_char]
    norm_num

/-- C7 witness: the amended statement applied at the concrete character
code 200 in cmr10 on a fresh writer. -/
theorem c7_witness :
    (add_horizontal_list_elem cks0 DVIFileWriter.new
        (.char 200 "cmr10") none).commands =
      (switch_to_font cks0 DVIFileWriter.new "cmr10").commands ++
        [DVICommand.set1 200] := by
  have h := c7_char_commands.1 cks0 DVIFileWriter.new 200 "cmr10" none
    (by norm_num)
  simpa using h

/-- C5: Every add_box call emits exactly one Push immediately before
serializing the box's elements and exactly one Pop immediately after,
with each element serialized using the parent box's glue-set ratio;
consequently, in the command stream of any add_page, the number of Push
commands equals the number of Pop commands between the matching Bop/Eop
pair. -/
theorem c5_push_pop_balance :
    (∀ (cks : String → Nat) (w : DVIFileWriter) (b : TeXBox), ∃ inner,
      (add_box cks w b).commands =
        w.commands ++ (DVICommand.push :: (inner ++ [DVICommand.pop]))
      ∧ countPush inner = countPop inner)
    ∧ (∀ (cks : String → Nat) (w : DVIFileWriter) (h d wd : Int)
      (list : List HorizontalListElem) (gsr : Option GlueSetRatioData),
      add_box cks w (.horizontalBox h d wd list gsr) =
        (let w2 := add_hlist cks
          { w with commands := w.commands ++ [DVICommand.push] } list gsr
         { w2 with commands := w2.commands ++ [DVICommand.pop] }))
    ∧ (∀ (cks : String → Nat) (w : DVIFileWriter) (h d wd : Int)
      (list : List VerticalListElem) (gsr : Option GlueSetRatioData),
      add_box cks w (.verticalBox h d wd list gsr) =
        (let w2 := add_vlist cks
          { w with commands := w.commands ++ [DVICommand.push] } list gsr
         { w2 with commands := w2.commands ++ [DVICommand.pop] }))
    ∧ (∀ (cks : String → Nat) (w : DVIFileWriter) (page : TeXBox)
      (cs : List Int), ∃ body,
      (add_page cks w page cs).commands =
        w.commands ++
          (DVICommand.bop cs w.last_page_start :: (body ++ [DVICommand.eop]))
      ∧ countPush body = countPop body) := by
  refine ⟨?_, add_box_hbox, add_box_vbox, ?_⟩
  · intro cks w b
    obtain ⟨inner, he, _, hc, _, _, _⟩ := add_box_ext cks b w
    exact ⟨inner, he, hc⟩
  · intro cks w page cs
    obtain ⟨inner, he, _, hc, _, _, _⟩ := add_box_ext cks page (pageStart w cs)
    refine ⟨DVICommand.push :: (inner ++ [DVICommand.pop]), ?_, ?_⟩
    · rw [add_page_eq]
      show (add_box cks (pageStart w cs) page).commands ++ [DVICommand.eop] = _
      rw [he]
      show (w.commands ++ [DVICommand.bop cs w.last_page_start]) ++ _ ++ _ = _
      simp
    · simp only [countPush, countPop, countPush_append, countPop_append]
      simp [isPushCmd, isPopCmd, hc]
      omega

/-- C3: each add_page emits a Bop whose pointer operand is the previous
value of last_page_start (-1 for the first page), sets last_page_start to
the sum of byte_size over every command emitted before this Bop, resets
curr_font_num to -1 before serializing the page box, and ends the page
with Eop; consequently the Bop back-pointers of a sequence of add_page
calls thread a backward linked list through all pages. -/
theorem c3_add_page_backpointers :
    (∀ (cks : String → Nat) (w : DVIFileWriter) (page : TeXBox)
      (cs : List Int),
      add_page cks w page cs =
        (let w3 := add_box cks
          { w with
              last_page_start := (byteSum w.commands : Int)
              commands := w.commands ++
                [DVICommand.bop cs w.last_page_start]
              curr_font_num := -1 } page
         { w3 with commands := w3.commands ++ [DVICommand.eop] }))
    ∧ (∀ (cks : String → Nat) (w : DVIFileWriter) (page : TeXBox)
      (cs : List Int),
      (add_page cks w page cs).last_page_start = (byteSum w.commands : Int))
    ∧ (∀ (cks : String → Nat) (w : DVIFileWriter) (page : TeXBox)
      (cs : List Int), ∃ body,
      (add_page cks w page cs).commands =
        w.commands ++
          (DVICommand.bop cs w.last_page_start :: (body ++ [DVICommand.eop])))
    ∧ (∀ (cks : String → Nat) (ps : List (TeXBox × List Int)),
      (bopOffsets 0 (add_pages cks DVIFileWriter.new ps).commands).map
          Prod.snd =
        ((-1 : Int) :: (bopOffsets 0
          (add_pages cks DVIFileWriter.new ps).commands).map Prod.fst).dropLast) := by
  refine ⟨fun cks w page cs => rfl, ?_, ?_, ?_⟩
  · intro cks w page cs
    rw [add_page_eq]
    obtain ⟨inner, he, _, _, hlps, _, _⟩ := add_box_ext cks page (pageStart w cs)
    exact hlps
  · intro cks w page cs
    obtain ⟨inner, he, _, hc, _, _, _⟩ := add_box_ext cks page (pageStart w cs)
    refine ⟨DVICommand.push :: (inner ++ [DVICommand.pop]), ?_⟩
    rw [add_page_eq]
    show (add_box cks (pageStart w cs) page).commands ++ [DVICommand.eop] = _
    rw [he]
    show (w.commands ++ [DVICommand.bop cs w.last_page_start]) ++ _ ++ _ = _
    simp
  · intro cks ps
    exact (chainInv_add_pages cks ps DVIFileWriter.new chainInv_new).1

/-- C4 counterexample: the claim gives the FntDef4 scale and design size
as 2^20 = 1048576, but the first switch_to_font of a session emits
FntDef4 with scale = design_size = 655360 (10 * 2^16). -/
theorem c4_counterexample :
    (switch_to_font cks0 DVIFileWriter.new "cmr10").commands =
      [DVICommand.fntDef4 0 0 655360 655360 0 5 "cmr10", DVICommand.fnt4 0]
    ∧ (655360 : Int) ≠ 2 ^ 20 := by
  constructor
  · rw [switch_fresh cks0 DVIFileWriter.new "cmr10" rfl (by
      simp [DVIFileWriter.new])]
    simp [DVIFileWriter.new, cks0]
    decide
  · norm_num

/-- C4 (amended: scale = design_size = 655360, i.e. 10 * 2^16, as the code
emits, and the length byte is the name's length reduced mod 256): the
first time a name is seen by a writer it is allocated the next integer
font number (consecutively from 0) and FntDef4 is emitted with that
number, the font's metrics checksum, scale = design_size = 655360, area 0
and the name's length; FntDef4 is emitted at most once per font per
session; every call emits Fnt4(font_num) exactly when the resolved number
differs from curr_font_num, so among the Fnt4 commands of each page (and
of any session without pages) no two consecutive ones carry the same font
number. -/
theorem c4_font_registry :
    (∀ (cks : String → Nat) (ops : List WriterOp) (font : String),
      lookupFont (runOps cks ops).font_nums font = none →
        switch_to_font cks (runOps cks ops) font =
          { runOps cks ops with
              commands := (runOps cks ops).commands ++
                [DVICommand.fntDef4 (runOps cks ops).next_font_num (cks font)
                  655360 655360 0 (font.length % 256) font,
                 DVICommand.fnt4 (runOps cks ops).next_font_num]
              curr_font_num := (runOps cks ops).next_font_num
              next_font_num := (runOps cks ops).next_font_num + 1
              font_nums := (font, (runOps cks ops).next_font_num) ::
                (runOps cks ops).font_nums })
    ∧ (∀ (cks : String → Nat) (w : DVIFileWriter) (font : String) (n : Int),
      lookupFont w.font_nums font = some n →
        switch_to_font cks w font =
          if n = w.curr_font_num then w
          else { w with commands := w.commands ++ [DVICommand.fnt4 n]
                        curr_font_num := n })
    ∧ (∀ (cks : String → Nat) (ops : List WriterOp),
        (fntDefsOf (runOps cks ops).commands).map Prod.fst =
          intRange (runOps cks ops).next_font_num.toNat)
    ∧ (∀ (cks : String → Nat) (ops : List WriterOp) (font : String),
        ((fntDefsOf (runOps cks ops).commands).filter
          (fun pr => pr.2 == font)).length ≤ 1)
    ∧ (∀ (cks : String → Nat) (ops : List WriterOp),
        adjDistinct (fnt4sOf (afterLastBop (runOps cks ops).commands)) = true)
    ∧ (∀ (cks : String → Nat) (ops : List WriterOp),
        (∀ op ∈ ops, isPageOp op = false) →
        adjDistinct (fnt4sOf (runOps cks ops).commands) = true) := by
  refine ⟨?_, ?_, ?_, ?_, ?_, ?_⟩
  · intro cks ops font h
    exact switch_fresh cks (runOps cks ops) font h
      (fontInv_next_ne_curr _ (fontInv_runOps cks ops))
  · intro cks w font n h
    exact switch_known cks w font n h
  · intro cks ops
    exact (fontInv_runOps cks ops).defs_consecutive
  · intro cks ops font
    cases hl : lookupFont (runOps cks ops).font_nums font with
    | some n =>
        rw [(fontInv_runOps cks ops).lookup_some font n hl]
        simp
    | none =>
        rw [(fontInv_runOps cks ops).lookup_none font hl]
        simp
  · intro cks ops
    exact (fontInv_runOps cks ops).fnt4_distinct
  · intro cks ops h
    have hnb := noBop_runOps cks ops h
    rw [← afterLastBop_no_bop _ hnb]
    exact (fontInv_runOps cks ops).fnt4_distinct

/-- C4 witness: the amended statement applied to the empty session and a
fresh font, and to a concrete writer that already knows the font. -/
theorem c4_witness :
    switch_to_font cks0 (runOps cks0 []) "cmr10" =
      { runOps cks0 [] with
          commands := (runOps cks0 []).commands ++
            [DVICommand.fntDef4 0 0 655360 655360 0 5 "cmr10",
             DVICommand.fnt4 0]
          curr_font_num := 0
          next_font_num := 1
          font_nums := [("cmr10", 0)] }
    ∧ switch_to_font cks0
        { DVIFileWriter.new with font_nums := [("cmr10", 3)]
                                 curr_font_num := 3 } "cmr10" =
      { DVIFileWriter.new with font_nums := [("cmr10", 3)]
                               curr_font_num := 3 } := by
  constructor
  · have h := c4_font_registry.1 cks0 [] "cmr10" rfl
    exact h
  · have h := c4_font_registry.2.1 cks0
      { DVIFileWriter.new with font_nums := [("cmr10", 3)]
                               curr_font_num := 3 } "cmr10" 3
      (by simp [lookupFont])
    simpa using h

/-- C2 counterexample: the claim says the translator treats the missing
(forbidden) table entries as None, emits no skip and succeeds, but
translating an Op atom followed by a Bin atom panics with
"Invalid atom type pair" instead of succeeding. -/
theorem c2_counterexample :
    convertMathList env0 .textStyle
      [.atom .op none none none, .atom .bin none none none] =
      .error "Invalid atom type pair" := by
  simp [convertMathList_eq, pass1_atom, pass1_nil, normNucleus_none, pass2,
    get_skip_for_atom_pair, INTER_ATOM_SPACING]

/-- C2 (amended: the eight forbidden pairs have no entry in the table and
get_skip_for_atom_pair fails on them with the panic message
"Invalid atom type pair" in every style, so the translator never emits a
skip for a forbidden pair; pass 2 fails as soon as such a pair becomes
adjacent, rather than treating the missing entry as None). -/
theorem c2_forbidden_pairs_panic :
    (∀ style : MathStyle,
      (INTER_ATOM_SPACING .op .bin = none ∧
        get_skip_for_atom_pair .op .bin style = .error "Invalid atom type pair")
      ∧ (INTER_ATOM_SPACING .bin .bin = none ∧
        get_skip_for_atom_pair .bin .bin style = .error "Invalid atom type pair")
      ∧ (INTER_ATOM_SPACING .bin .rel = none ∧
        get_skip_for_atom_pair .bin .rel style = .error "Invalid atom type pair")
      ∧ (INTER_ATOM_SPACING .bin .close = none ∧
        get_skip_for_atom_pair .bin .close style = .error "Invalid atom type pair")
      ∧ (INTER_ATOM_SPACING .bin .punct = none ∧
        get_skip_for_atom_pair .bin .punct style = .error "Invalid atom type pair")
      ∧ (INTER_ATOM_SPACING .rel .bin = none ∧
        get_skip_for_atom_pair .rel .bin style = .error "Invalid atom type pair")
      ∧ (INTER_ATOM_SPACING .open_ .bin = none ∧
        get_skip_for_atom_pair .open_ .bin style = .error "Invalid atom type pair")
      ∧ (INTER_ATOM_SPACING .punct .bin = none ∧
        get_skip_for_atom_pair .punct .bin style = .error "Invalid atom type pair"))
    ∧ (∀ (style : MathStyle) (kindL kindR : AtomKind)
      (nucleus sub sup : Option MathField) (rest : List MathListElem),
      INTER_ATOM_SPACING kindL kindR = none →
      pass2 (some kindL) style (.atom kindR nucleus sub sup :: rest) =
        .error "Invalid atom type pair") := by
  constructor
  · intro style
    refine ⟨⟨rfl, rfl⟩, ⟨rfl, rfl⟩, ⟨rfl, rfl⟩, ⟨rfl, rfl⟩, ⟨rfl, rfl⟩,
      ⟨rfl, rfl⟩, ⟨rfl, rfl⟩, ⟨rfl, rfl⟩⟩
  · intro style kindL kindR nucleus sub sup rest h
    simp [pass2, get_skip_for_atom_pair, h]

/-- C2 witness: the amended pass-2 failure applied at the concrete
forbidden pair Op/Bin in TextStyle. -/
theorem c2_witness :
    pass2 (some .op) .textStyle [.atom .bin none none none] =
      .error "Invalid atom type pair" :=
  c2_forbidden_pairs_panic.2 .textStyle .op .bin none none none [] rfl

/-- C6: convert_math_list_to_horizontal_list fails loudly whenever any
atom of the input math list carries a subscript or a superscript (it
never silently drops the script or returns a horizontal list for such
input), and after pass 1 every atom's nucleus is either absent or a
box. -/
theorem c6_scripts_fail_loudly :
    (∀ (env : MathEnv) (style : MathStyle) (l : List MathListElem),
      l.any elemHasScript = true →
      ∃ msg, convertMathList env style l = .error msg)
    ∧ (∀ (env : MathEnv) (style : MathStyle) (l l2 : List MathListElem),
      pass1 env style l = .ok l2 → ∀ e ∈ l2, nucleusBoxOrNone e) := by
  constructor
  · intro env style l h
    obtain ⟨msg, hmsg⟩ := pass1_error_of_script env l h style
    refine ⟨msg, ?_⟩
    rw [convertMathList_eq, hmsg]
  · intro env style l l2 h
    exact pass1_ok_nuclei env l style l2 h

/-- C6 witness: a one-atom list with a superscript makes the conversion
fail, and the pass-1 output of a symbol atom has a box nucleus. -/
theorem c6_witness :
    (∃ msg, convertMathList env0 .textStyle
      [.atom .ord (some (.symbol ⟨1, 97⟩)) none (some (.symbol ⟨1, 98⟩))] =
      .error msg)
    ∧ (∀ e ∈ [MathListElem.atom .ord
        (some (.teXBox (.horizontalBox 0 0 0 [.char 97 "cmr10"] none)))
        none none], nucleusBoxOrNone e) := by
  constructor
  · exact c6_scripts_fail_loudly.1 env0 .textStyle _ rfl
  · refine c6_scripts_fail_loudly.2 env0 .textStyle
      [.atom .ord (some (.symbol ⟨1, 97⟩)) none none] _ ?_
    simp [pass1_atom, pass1_nil, normNucleus_some, normField_symbol, env0]

/-- C1: a math list of five atoms with boxed or symbol nuclei and kinds
Ord, Rel, Punct, Ord, Bin translates in TextStyle to exactly the Ord box,
a thick skip (5pt stretch 5pt shrink 0), the Rel box, the Punct box with
no skip after the Rel box, a thin skip (3pt 0 0), the Ord box, a medium
skip (4pt stretch 2pt shrink 4pt) and the Bin box; in ScriptStyle and
ScriptScriptStyle the same input yields the five boxes with no skips. -/
theorem c1_inter_atom_spacing (env : MathEnv) (n1 n2 n3 n4 n5 : MathField)
    (h1 : BoxOrSym n1) (h2 : BoxOrSym n2) (h3 : BoxOrSym n3)
    (h4 : BoxOrSym n4) (h5 : BoxOrSym n5) :
    ∃ b1 b2 b3 b4 b5 : TeXBox,
      convertMathList env .textStyle
        [.atom .ord (some n1) none none, .atom .rel (some n2) none none,
         .atom .punct (some n3) none none, .atom .ord (some n4) none none,
         .atom .bin (some n5) none none] =
        .ok [.box b1, .hskip ⟨327680, .dimen 327680, .dimen 0⟩, .box b2,
             .box b3, .hskip ⟨196608, .dimen 0, .dimen 0⟩, .box b4,
             .hskip ⟨262144, .dimen 131072, .dimen 262144⟩, .box b5]
      ∧ convertMathList env .scriptStyle
        [.atom .ord (some n1) none none, .atom .rel (some n2) none none,
         .atom .punct (some n3) none none, .atom .ord (some n4) none none,
         .atom .bin (some n5) none none] =
        .ok [.box b1, .box b2, .box b3, .box b4, .box b5]
      ∧ convertMathList env .scriptScriptStyle
        [.atom .ord (some n1) none none, .atom .rel (some n2) none none,
         .atom .punct (some n3) none none, .atom .ord (some n4) none none,
         .atom .bin (some n5) none none] =
        .ok [.box b1, .box b2, .box b3, .box b4, .box b5] := by
  obtain ⟨b1, hb1⟩ := normField_boxOrSym env n1 h1
  obtain ⟨b2, hb2⟩ := normField_boxOrSym env n2 h2
  obtain ⟨b3, hb3⟩ := normField_boxOrSym env n3 h3
  obtain ⟨b4, hb4⟩ := normField_boxOrSym env n4 h4
  obtain ⟨b5, hb5⟩ := normField_boxOrSym env n5 h5
  refine ⟨b1, b2, b3, b4, b5, ?_, ?_, ?_⟩ <;>
    simp [convertMathList_eq, pass1_atom, pass1_nil, normNucleus_some,
      hb1, hb2, hb3, hb4, hb5, pass2, get_skip_for_atom_pair,
      INTER_ATOM_SPACING, thinskip, mediumskip, thickskip, MathStyle.is_script]

/-- C1 witness: the spacing statement applied at a concrete environment
with three box nuclei and two symbol nuclei. -/
theorem c1_witness :
    ∃ b1 b2 b3 b4 b5 : TeXBox,
      convertMathList env0 .textStyle
        [.atom .ord (some (.teXBox (.horizontalBox 1 2 3 [] none))) none none,
         .atom .rel (some (.symbol ⟨1, 114⟩)) none none,
         .atom .punct (some (.symbol ⟨1, 112⟩)) none none,
         .atom .ord (some (.teXBox (.verticalBox 4 5 6 [] none))) none none,
         .atom .bin (some (.teXBox (.horizontalBox 7 8 9 [] none))) none none] =
        .ok [.box b1, .hskip ⟨327680, .dimen 327680, .dimen 0⟩, .box b2,
             .box b3, .hskip ⟨196608, .dimen 0, .dimen 0⟩, .box b4,
             .hskip ⟨262144, .dimen 131072, .dimen 262144⟩, .box b5]
      ∧ convertMathList env0 .scriptStyle
        [.atom .ord (some (.teXBox (.horizontalBox 1 2 3 [] none))) none none,
         .atom .rel (some (.symbol ⟨1, 114⟩)) none none,
         .atom .punct (some (.symbol ⟨1, 112⟩)) none none,
         .atom .ord (some (.teXBox (.verticalBox 4 5 6 [] none))) none none,
         .atom .bin (some (.teXBox (.horizontalBox 7 8 9 [] none))) none none] =
        .ok [.box b1, .box b2, .box b3, .box b4, .box b5]
      ∧ convertMathList env0 .scriptScriptStyle
        [.atom .ord (some (.teXBox (.horizontalBox 1 2 3 [] none))) none none,
         .atom .rel (some (.symbol ⟨1, 114⟩)) none none,
         .atom .punct (some (.symbol ⟨1, 112⟩)) none none,
         .atom .ord (some (.teXBox (.verticalBox 4 5 6 [] none))) none none,
         .atom .bin (some (.teXBox (.horizontalBox 7 8 9 [] none))) none none] =
        .ok [.box b1, .box b2, .box b3, .box b4, .box b5] :=
  c1_inter_atom_spacing env0 _ _ _ _ _
    (Or.inl ⟨_, rfl⟩) (Or.inr ⟨_, rfl⟩) (Or.inr ⟨_, rfl⟩)
    (Or.inl ⟨_, rfl⟩) (Or.inl ⟨_, rfl⟩)

/-- C9: parse_math_group fails with "Invalid start of math group" when the
first expanded token is not a BeginGroup character, fails with
"Math group didn't end with an EndGroup" when the inner math list is not
followed by an EndGroup character, and returns the inner math list when
both delimiters are present. -/
theorem c9_math_group_errors :
    (∀ (fuel : Nat) (p : TexParser),
      (match peekTok p with
        | some (.char _ .beginGroup) => False
        | _ => True) →
      parseMathGroup fuel p = .error "Invalid start of math group")
    ∧ (∀ (fuel : Nat) (p : TexParser) (c : Char) (l : List MathListElem)
        (p3 : TexParser),
      peekTok p = some (.char c .beginGroup) →
      parseMathListAux fuel (pushState { p with tokens := p.tokens.tail }) [] =
        .ok (l, p3) →
      (match peekTok p3 with
        | some (.char _ .endGroup) => False
        | _ => True) →
      parseMathGroup fuel p = .error "Math group didn\x27t end with an EndGroup")
    ∧ (∀ (fuel : Nat) (p : TexParser) (c c2 : Char) (l : List MathListElem)
        (p3 : TexParser),
      peekTok p = some (.char c .beginGroup) →
      parseMathListAux fuel (pushState { p with tokens := p.tokens.tail }) [] =
        .ok (l, p3) →
      peekTok p3 = some (.char c2 .endGroup) →
      parseMathGroup fuel p =
        .ok (l, popState { p3 with tokens := p3.tokens.tail })) := by
  refine ⟨?_, ?_, ?_⟩
  · intro fuel p hnb
    rw [parseMathGroup.eq_def]
    simp only [lexTok]
    cases hh : p.tokens.head? with
    | none => rfl
    | some t =>
        obtain ⟨c, cat⟩ := t
        simp only [peekTok, hh] at hnb
        cases cat <;> first | rfl | exact hnb.elim
  · intro fuel p c l p3 hb hlist hne
    rw [parseMathGroup.eq_def]
    simp only [lexTok, peekTok] at hb ⊢
    rw [hb]
    simp only [hlist, lexTok, popState]
    cases hh : p3.tokens.head? with
    | none => rfl
    | some t =>
        obtain ⟨c2, cat⟩ := t
        simp only [peekTok, hh] at hne
        cases cat <;> first | rfl | exact hne.elim
  · intro fuel p c c2 l p3 hb hlist hend
    rw [parseMathGroup.eq_def]
    simp only [lexTok, peekTok] at hb hend ⊢
    rw [hb]
    simp only [hlist, lexTok, popState]
    rw [hend]

/-- C9 witness: the three behaviors at concrete token streams: a letter
where a group must start, an unterminated group, and a complete group
returning its inner atom list. -/
theorem c9_witness :
    parseMathGroup 2 ⟨[.char 'a' .letter], st0⟩ =
      .error "Invalid start of math group"
    ∧ parseMathGroup 2 ⟨[.char '{' .beginGroup, .char 'a' .letter], st0⟩ =
      .error "Math group didn\x27t end with an EndGroup"
    ∧ parseMathGroup 2 ⟨[.char '{' .beginGroup, .char 'a' .letter,
        .char '}' .endGroup], st0⟩ =
      .ok ([atomFromMathCode 0x7161],
        ⟨[], ⟨fun _ => 0x7161, fun _ => none, 0⟩⟩) := by
  refine ⟨?_, ?_, ?_⟩
  · exact c9_math_group_errors.1 2 ⟨[.char 'a' .letter], st0⟩ trivial
  · have h := c9_math_group_errors.2.1 2
      ⟨[.char '{' .beginGroup, .char 'a' .letter], st0⟩ '{'
      [atomFromMathCode 0x7161]
      ⟨[], ⟨fun _ => 0x7161, fun _ => none, 1⟩⟩
      rfl
      (by simp [parseMathListAux, isMathSymbolHead, isCharacterHead,
        isMathCharacterHead, isSuperscriptHead, isSubscriptHead, peekTok,
        parseMathSymbol, parseCharacterToMathCode, lexTok, pushState, st0])
      trivial
    exact h
  · have h := c9_math_group_errors.2.2 2
      ⟨[.char '{' .beginGroup, .char 'a' .letter, .char '}' .endGroup], st0⟩
      '{' '}'
      [atomFromMathCode 0x7161]
      ⟨[.char '}' .endGroup], ⟨fun _ => 0x7161, fun _ => none, 1⟩⟩
      rfl
      (by simp [parseMathListAux, isMathSymbolHead, isCharacterHead,
        isMathCharacterHead, isSuperscriptHead, isSubscriptHead, peekTok,
        parseMathSymbol, parseCharacterToMathCode, lexTok, pushState, st0])
      rfl
    simpa [popState] using h

end Xy
